import Mathlib

/-!
Verification of the ctOS classification-hierarchy resolver and
batch-enrichment orchestrator.

The definitions below are a shallow embedding of the Python sources:
  * src/services/hts_context/hierarchy.py   (HTSHierarchyBuilder)
  * src/services/hts_context/service.py     (HTSContextService.get_hts_context)
  * src/services/llm_enhancement/api_client.py   (exponential_backoff_retry)
  * src/services/llm_enhancement/batch_processor.py (BatchProcessor, resume_pass_1)

Python dicts are modelled as functions into Option, mutation as explicit
state passing, exceptions as Except values.
-/

namespace CtOS

/-- One HTS entry as loaded from the reference JSON
(src/services/hts_context/models.py, class HTSItem).  Only the fields the
hierarchy builder and the lookup service read are kept; the optional
tariff-style metadata fields are carried through unused by the core and
are omitted.  The indent is an Int, as a Python int. -/
structure HTSItem where
  htsno : String
  indent : Int
  description : String
deriving Repr, DecidableEq

/-- One node of the hierarchy map (hierarchy.py, build_hierarchy_map:
the per-code dict with keys "item", "parent", "children"). -/
structure HNode where
  item : HTSItem
  parent : Option String
  children : List String
deriving Repr, DecidableEq

/-- The hierarchy map: the Python dict from HTS code to node, modelled as a
function from codes to optional nodes. -/
def HMap : Type := String → Option HNode

def HMap.empty : HMap := fun _ => none

def HMap.insert (m : HMap) (k : String) (v : HNode) : HMap :=
  fun c => if c = k then some v else m c

/-- Update the node stored at key k when present.  In the builder this is
only used with keys that are present in the map (a missing key would be a
KeyError in the Python original). -/
def HMap.adjust (m : HMap) (k : String) (f : HNode → HNode) : HMap :=
  fun c => if c = k then (m c).map f else m c

/-- Result of one run of _find_parent_code, also recording which
statistics counter it bumps: codePrefixMatch and fallbackMatch correspond to
prefix_matches / fallback_matches, orphaned to failed, and root is the
silent early return for indent_level == 0 (no counter). -/
inductive ParentResult where
  | codePrefixMatch (code : String)
  | fallbackMatch (code : String)
  | root
  | orphaned
deriving Repr, DecidableEq

def ParentResult.toOption : ParentResult → Option String
  | .codePrefixMatch c => some c
  | .fallbackMatch c => some c
  | .root => none
  | .orphaned => none

/-- Python str.startswith: the first string begins with the second.
Stated on the character lists so that it evaluates by kernel reduction
(the core String.startsWith does not). -/
def strStartsWith (s pre : String) : Prop :=
  s.data.take pre.data.length = pre.data

instance (s pre : String) : Decidable (strStartsWith s pre) := by
  unfold strStartsWith; infer_instance

/-- Step 3 of _find_parent_code (hierarchy.py lines 113-127): the
best_match / best_match_length loop over parent_candidates.  A candidate
replaces the accumulator exactly when its code is a string-prefix of
hts_code and strictly longer than the best length so far. -/
def bestMatchFold (hts_code : String) (cands : List HTSItem) :
    Option String × Nat :=
  cands.foldl
    (fun acc c =>
      if strStartsWith hts_code c.htsno ∧ acc.2 < c.htsno.data.length
      then (some c.htsno, c.htsno.data.length) else acc)
    (none, 0)

/-- First "chapter" segment of a code: the substring before the first dot,
or the first 4 characters when there is no dot (hierarchy.py lines
158-166).  split(".")[0] is the run of characters before the first dot,
and s[:4] the first 4 characters. -/
def chapterOf (code : String) : String :=
  if code.data.contains '.' then ⟨code.data.takeWhile (fun c => c ≠ '.')⟩
  else ⟨code.data.take 4⟩

/-- The method _find_parent_code (hierarchy.py lines 70-178).  The hierarchy_map
parameter of the Python function is never read and is dropped here.  The
Python guard "if not parent_candidates or not best_match" before step 4 is
always true at that point (best_match is None whenever step 3 falls
through), so it is not modelled. -/
def find_parent_result (hts_code : String) (indent_level : Int)
    (current_index : Nat) (hts_items : List HTSItem) : ParentResult :=
  if indent_level = 0 then .root
  else
    let parent_candidates :=
      hts_items.filter (fun it => decide (it.indent = indent_level - 1))
    match (bestMatchFold hts_code parent_candidates).1 with
    | some best => .codePrefixMatch best
    | none =>
      match (hts_items.take current_index).reverse.find?
          (fun it =>
            decide (it.indent < indent_level) &&
              decide (strStartsWith hts_code it.htsno)) with
      | some it => .fallbackMatch it.htsno
      | none =>
        match (hts_items.take current_index).reverse.find?
            (fun it =>
              decide (it.indent < indent_level) &&
                decide (chapterOf hts_code = chapterOf it.htsno)) with
        | some it => .fallbackMatch it.htsno
        | none => .orphaned

/-- Parent code returned by _find_parent_code. -/
def find_parent_code (hts_code : String) (indent_level : Int)
    (current_index : Nat) (hts_items : List HTSItem) : Option String :=
  (find_parent_result hts_code indent_level current_index hts_items).toOption

/-- Initialization loop of build_hierarchy_map (hierarchy.py lines 37-40):
every code is mapped to a node with its item, no parent and no children.
On duplicate codes the later item wins, as in a Python dict. -/
def initHMap (hts_items : List HTSItem) : HMap :=
  hts_items.foldl (fun m it => m.insert it.htsno ⟨it, none, []⟩) HMap.empty

/-- One iteration of the parent-assignment loop (hierarchy.py lines 43-59)
for the item at position idx: set the parent of the item's node and append
the item's code to the children of the parent's node. -/
def assignParent (hts_items : List HTSItem) (m : HMap) (idx : Nat)
    (it : HTSItem) : HMap :=
  match find_parent_code it.htsno it.indent idx hts_items with
  | some p =>
      (m.adjust it.htsno (fun nd => { nd with parent := some p })).adjust p
        (fun nd => { nd with children := nd.children ++ [it.htsno] })
  | none => m

/-- The enumerate loop of build_hierarchy_map, processing the remaining
items starting at position idx. -/
def buildFrom (hts_items : List HTSItem) (m : HMap) (idx : Nat) :
    List HTSItem → HMap
  | [] => m
  | it :: rest => buildFrom hts_items (assignParent hts_items m idx it) (idx + 1) rest

/-- build_hierarchy_map (hierarchy.py lines 23-68). -/
def build_hierarchy_map (hts_items : List HTSItem) : HMap :=
  buildFrom hts_items (initHMap hts_items) 0 hts_items

/-- One level of the hierarchy path (models.py, HTSHierarchyPath). -/
structure HTSHierarchyPath where
  code : String
  description : String
  indent : Int
deriving Repr, DecidableEq

/-- Response of get_hts_context (models.py, HTSContextResponse). -/
structure HTSContextResponse where
  hts_code : String
  found : Bool
  hierarchy_path : List HTSHierarchyPath
  error : Option String
deriving Repr, DecidableEq

/-- The while loop of get_hts_context (service.py lines 94-110): collect
the entry for the current code and move to its parent, building the path
in leaf-to-root order (the caller reverses it).  The Python loop is
unbounded and relies on the builder producing no cycle; here fuel bounds
the walk, and none models the two situations where the original would not
return normally (looping on a cycle, KeyError on a dangling parent). -/
def walkUp (m : HMap) : Nat → String → Option (List HTSHierarchyPath)
  | 0, _ => none
  | fuel + 1, code =>
    match m code with
    | none => none
    | some nd =>
      match nd.parent with
      | none => some [⟨code, nd.item.description, nd.item.indent⟩]
      | some p =>
        (walkUp m fuel p).map
          (fun rest => ⟨code, nd.item.description, nd.item.indent⟩ :: rest)

/-- Number of parent-pointer steps from a code to a node without parent,
if that is reached within fuel steps through the map. -/
def stepsToRoot (m : HMap) : Nat → String → Option Nat
  | 0, _ => none
  | fuel + 1, code =>
    match m code with
    | none => none
    | some nd =>
      match nd.parent with
      | none => some 0
      | some p => (stepsToRoot m fuel p).map (· + 1)

/-- Largest indent level observed in the input (0 for the empty list),
as a natural number; negative indents count as 0. -/
def maxIndentNat (hts_items : List HTSItem) : Nat :=
  (hts_items.map (fun it => it.indent.toNat)).foldl max 0

/-- get_hts_context (service.py lines 67-120), over the map built from
hts_items.  The fuel maxIndentNat + length + 1 is enough for every map the
builder produces from duplicate-free input with non-negative indents; a
none result marks the pathological inputs on which the Python loop would
not return normally. -/
def get_hts_context_model (hts_items : List HTSItem) (hts_code : String) :
    Option HTSContextResponse :=
  let m := build_hierarchy_map hts_items
  match m hts_code with
  | none =>
      some ⟨hts_code, false, [], some "HTS code not found in reference data"⟩
  | some _ =>
      (walkUp m (maxIndentNat hts_items + hts_items.length + 1) hts_code).map
        (fun path => ⟨hts_code, true, path.reverse, none⟩)

/-- validate_hts_code_exists (service.py lines 122-132). -/
def validate_hts_code_exists (hts_items : List HTSItem) (hts_code : String) :
    Bool :=
  (build_hierarchy_map hts_items hts_code).isSome

/-- Abbreviation for the fold step of initHMap. -/
def initStep (m : HMap) (it : HTSItem) : HMap :=
  m.insert it.htsno ⟨it, none, []⟩

/-- The parent-setting update of the loop body. -/
def setParentFn (p : String) (nd : HNode) : HNode :=
  { nd with parent := some p }

/-- The child-appending update of the loop body. -/
def addChildFn (child : String) (nd : HNode) : HNode :=
  { nd with children := nd.children ++ [child] }

/-- The fold step of the best_match loop. -/
def bmfStep (hts_code : String) (acc : Option String × Nat) (c : HTSItem) :
    Option String × Nat :=
  if strStartsWith hts_code c.htsno ∧ acc.2 < c.htsno.data.length
  then (some c.htsno, c.htsno.data.length) else acc

/-- Reciprocity: whoever has a parent appears among that parent's
children. -/
def Reciprocal (m : HMap) : Prop :=
  ∀ (c : String) (nd : HNode) (p : String),
    m c = some nd → nd.parent = some p →
    ∃ nd', m p = some nd' ∧ c ∈ nd'.children

/-! ### Batch orchestrator (src/services/llm_enhancement/batch_processor.py)

The collaborators the orchestrator calls (product store, rule store,
prompt builder, provider client, response parser) are parameters of the
embedding; a call that can raise is a function into Except. -/

/-- Confidence level after validate_llm_response, which guarantees one of
Low / Medium / High. -/
inductive ConfLevel where
  | low
  | medium
  | high
deriving Repr, DecidableEq

/-- The confidence_distribution dict with keys Low / Medium / High. -/
structure ConfDist where
  lowCount : Nat
  mediumCount : Nat
  highCount : Nat
deriving Repr, DecidableEq

/-- confidence_distribution[validated confidence_level] += 1. -/
def ConfDist.bump (d : ConfDist) : ConfLevel → ConfDist
  | .low => { d with lowCount := d.lowCount + 1 }
  | .medium => { d with mediumCount := d.mediumCount + 1 }
  | .high => { d with highCount := d.highCount + 1 }

/-- The fields of a product the orchestrator reads.  final_hts = none
models a missing final_hts attribute; the empty string is a present but
falsy value — both are rejected by the guard in _get_hts_context. -/
structure Product where
  item_id : String
  final_hts : Option String
deriving Repr, DecidableEq

/-- A rule as consumed by the prompt builder. -/
structure Rule where
  rule_id : String
  content : String
deriving Repr, DecidableEq

/-- The validated response fields the loop reads
(validate_llm_response output). -/
structure Validated where
  enhanced_description : String
  confidence_score : String
  confidence_level : ConfLevel
deriving Repr, DecidableEq

/-- ProductResult (models.py). -/
structure ProductResult where
  item_id : String
  success : Bool
  confidence_level : Option ConfLevel
  confidence_score : Option String
  error : Option String
deriving Repr, DecidableEq

/-- BatchResult (models.py).  The two wall-clock timing fields
(processing_time, avg_time_per_product) are not modelled. -/
structure BatchResult where
  pass_number : Int
  batch_size : Nat
  total_processed : Nat
  successful : Nat
  failed : Nat
  success_rate : ℚ
  confidence_distribution : ConfDist
  results : List ProductResult
deriving Repr, DecidableEq

/-- The batch cache together with its hit/miss counters
(_hts_context_cache, _cache_hits, _cache_misses).  svcCalls additionally
counts the invocations of the underlying Lookup Service collaborator
(the single call site at batch_processor.py line 338), which the Python
object does not store but the cache-efficiency claim is about. -/
structure CacheState (Ctx : Type) where
  cache : List (String × Ctx)
  hits : Nat
  misses : Nat
  svcCalls : Nat
deriving Repr, DecidableEq

def CacheState.start (Ctx : Type) : CacheState Ctx := ⟨[], 0, 0, 0⟩

/-- Python "hts_code in self._hts_context_cache" /
"self._hts_context_cache[hts_code]". -/
def findCached {Ctx : Type} : List (String × Ctx) → String → Option Ctx
  | [], _ => none
  | (k, v) :: rest, code => if k = code then some v else findCached rest code

/-- The method _get_hts_context (batch_processor.py lines 307-352): guard on a
missing/empty final_hts, cache lookup, on a miss one service call whose
exception is caught and whose non-null result is cached. -/
def get_hts_context_step {Ctx : Type}
    (lookup : String → Except String (Option Ctx)) (product : Product)
    (st : CacheState Ctx) : Option Ctx × CacheState Ctx :=
  match product.final_hts with
  | none => (none, st)
  | some code =>
    if code = "" then (none, st)
    else
      match findCached st.cache code with
      | some ctx => (some ctx, { st with hits := st.hits + 1 })
      | none =>
        let st1 := { st with misses := st.misses + 1,
                              svcCalls := st.svcCalls + 1 }
        match lookup code with
        | .error _ => (none, st1)
        | .ok none => (none, st1)
        | .ok (some ctx) =>
          (some ctx, { st1 with cache := st1.cache ++ [(code, ctx)] })

/-- The per-item collaborators of the main loop, steps (2)-(5). -/
structure PipelineEnv (Ctx Raw Upd : Type) where
  lookup : String → Except String (Option Ctx)
  build_user_prompt : Product → Option Ctx → List Rule → Except String String
  call_api : String → Except String String
  extract_json_from_response : String → Except String Raw
  validate_llm_response : Raw → String → Except String Validated
  flatten_for_database : Validated → String → List Rule → Int →
    Except String Upd
  update_processing_results : String → Upd → Except String Bool

/-- The method _update_database (batch_processor.py lines 354-360): a store exception
is caught and reported as False. -/
def update_database {Ctx Raw Upd : Type} (env : PipelineEnv Ctx Raw Upd)
    (item_id : String) (upd : Upd) : Bool :=
  match env.update_processing_results item_id upd with
  | .ok b => b
  | .error _ => false

/-- Steps (2)-(6) of the loop body for one product, given the context
resolved in step (1): the first raised exception aborts the item. -/
def runPipeline {Ctx Raw Upd : Type} (env : PipelineEnv Ctx Raw Upd)
    (rules : List Rule) (pass_number : Int) (product : Product)
    (ctx : Option Ctx) : Except String (ConfLevel × String) := do
  let prompt ← env.build_user_prompt product ctx rules
  let response ← env.call_api prompt
  let parsed ← env.extract_json_from_response response
  let validated ← env.validate_llm_response parsed product.item_id
  let upd ← env.flatten_for_database validated product.item_id rules
    pass_number
  if update_database env product.item_id upd then
    pure (validated.confidence_level, validated.confidence_score)
  else
    Except.error ("Database update failed for " ++ product.item_id)

/-- Running state of the product loop. -/
structure LoopState (Ctx : Type) where
  cs : CacheState Ctx
  results : List ProductResult
  successful : Nat
  failed : Nat
  dist : ConfDist
deriving Repr, DecidableEq

def LoopState.start (Ctx : Type) : LoopState Ctx :=
  ⟨CacheState.start Ctx, [], 0, 0, ⟨0, 0, 0⟩⟩

/-- One iteration of the product loop (batch_processor.py lines 105-167):
step (1) resolves the context through the cache (its own exceptions are
already caught inside _get_hts_context), the remaining steps run under the
try whose except-branch records a failure outcome and continues. -/
def processOne {Ctx Raw Upd : Type} (env : PipelineEnv Ctx Raw Upd)
    (rules : List Rule) (pass_number : Int) (st : LoopState Ctx)
    (product : Product) : LoopState Ctx :=
  match runPipeline env rules pass_number product
      (get_hts_context_step env.lookup product st.cs).1 with
  | .ok (lvl, score) =>
    { cs := (get_hts_context_step env.lookup product st.cs).2,
      results := st.results ++
        [⟨product.item_id, true, some lvl, some score, none⟩],
      successful := st.successful + 1,
      failed := st.failed,
      dist := st.dist.bump lvl }
  | .error msg =>
    { cs := (get_hts_context_step env.lookup product st.cs).2,
      results := st.results ++ [⟨product.item_id, false, none, none, some msg⟩],
      successful := st.successful,
      failed := st.failed + 1,
      dist := st.dist }

/-- The whole product loop, starting from the cleared cache. -/
def processItems {Ctx Raw Upd : Type} (env : PipelineEnv Ctx Raw Upd)
    (rules : List Rule) (pass_number : Int) (products : List Product) :
    LoopState Ctx :=
  products.foldl (processOne env rules pass_number) (LoopState.start Ctx)

/-- The rule collaborator (rules manager). -/
structure RuleStore where
  get_rules_by_ids : List String → Except String (List Rule)
  get_active_rules : Unit → Except String (List Rule)

/-- The method _load_rules (batch_processor.py lines 267-305): pass 1 loads nothing;
otherwise the selected rules when a non-empty selection is given, else all
active rules; ANY exception is caught and turned into an empty rule list
(the except branch at lines 303-305). -/
def load_rules (rs : RuleStore) (pass_number : Int)
    (selected_rule_ids : Option (List String)) : List Rule :=
  if pass_number = 1 then []
  else
    let fetched :=
      match selected_rule_ids with
      | some (id :: ids) => rs.get_rules_by_ids (id :: ids)
      | _ => rs.get_active_rules ()
    match fetched with
    | .ok rules => rules
    | .error _ => []

/-- The product store operations _load_products uses. -/
structure DbEnv where
  get_unprocessed_products : Nat → List Product
  get_products_by_ids : List String → List Product

/-- The method _load_products (batch_processor.py lines 209-265).  Python's falsy
test "if not selected_item_ids" treats None and the empty list alike. -/
def load_products (db : DbEnv) (batch_size : Nat) (pass_number : Int)
    (selected_item_ids : Option (List String)) : List Product :=
  if pass_number = 1 then
    match selected_item_ids with
    | none => db.get_unprocessed_products batch_size
    | some ids => db.get_products_by_ids ids
  else if 2 ≤ pass_number then
    match selected_item_ids with
    | some (id :: ids) => db.get_products_by_ids (id :: ids)
    | _ => []
  else []

/-- The method _create_empty_batch_result (batch_processor.py lines 362-377). -/
def create_empty_batch_result (pass_number : Int) (batch_size : Nat) :
    BatchResult :=
  ⟨pass_number, batch_size, 0, 0, 0, 0, ⟨0, 0, 0⟩, []⟩

/-- process_batch (batch_processor.py lines 61-207): clear the cache and
counters, load products (early empty report when none), load rules,
run the loop, assemble the report.  The second component is the final
cache/counter state of the processor object, about which the
cache-efficiency log line at lines 190-205 reports. -/
def process_batch {Ctx Raw Upd : Type} (db : DbEnv)
    (env : PipelineEnv Ctx Raw Upd) (rs : RuleStore) (batch_size : Nat)
    (pass_number : Int) (selected_item_ids : Option (List String))
    (selected_rule_ids : Option (List String)) :
    BatchResult × CacheState Ctx :=
  let products := load_products db batch_size pass_number selected_item_ids
  match products with
  | [] => (create_empty_batch_result pass_number batch_size,
      CacheState.start Ctx)
  | _ :: _ =>
    let rules := load_rules rs pass_number selected_rule_ids
    let st := processItems env rules pass_number products
    (⟨pass_number, batch_size, products.length, st.successful, st.failed,
      (st.successful : ℚ) / (products.length : ℚ), st.dist, st.results⟩,
      st.cs)

/-- The cache hit rate computed for the log line at batch_processor.py
lines 196-198. -/
def cache_hit_rate {Ctx : Type} (st : CacheState Ctx) : ℚ :=
  if 0 < st.hits + st.misses then
    (st.hits : ℚ) / ((st.hits + st.misses : Nat) : ℚ) * 100
  else 0

/-! ### Retry-wrapped provider client
(src/services/llm_enhancement/api_client.py, exponential_backoff_retry) -/

/-- The typed provider failures the retry wrapper distinguishes:
openai.APITimeoutError, openai.RateLimitError, openai.APIError with an
optional status_code attribute, openai.AuthenticationError,
openai.BadRequestError, and the catch-all branch. -/
inductive ProviderError where
  | apiTimeout
  | rateLimit
  | apiError (status_code : Option Int)
  | authentication
  | badRequest
  | unexpected (msg : String)
deriving Repr, DecidableEq

/-- Trace of one wrapped call: how often the underlying function was
invoked, the sleeps performed between attempts, and the final outcome. -/
structure RetryTrace where
  calls : Nat
  sleeps : List ℚ
  outcome : Except ProviderError String

/-- The attempt loop of exponential_backoff_retry (api_client.py lines
46-108), one branch per except clause.  The underlying call is a function
of the attempt number so that per-attempt behaviour can be expressed;
remaining counts the iterations the for-range still holds. -/
def retryGo (f : Nat → Except ProviderError String) (max_attempts : Nat)
    (base_delay exponential_base : ℚ) :
    Nat → Nat → Nat → List ℚ → Option ProviderError → RetryTrace
  | 0, _, calls, sleeps, last =>
    -- for-loop exhausted without returning: "raise last_exception";
    -- this is reachable only with max_attempts < 1, where last is None
    -- and Python raises a TypeError for raising None
    ⟨calls, sleeps, .error (last.getD (.unexpected "raise None"))⟩
  | remaining + 1, attempt, calls, sleeps, _ =>
    match f attempt with
    | .ok s => ⟨calls + 1, sleeps, .ok s⟩
    | .error e =>
      match e with
      | .apiTimeout =>
        if attempt < max_attempts then
          retryGo f max_attempts base_delay exponential_base remaining
            (attempt + 1) (calls + 1)
            (sleeps ++ [base_delay * exponential_base ^ (attempt - 1)])
            (some e)
        else ⟨calls + 1, sleeps, .error e⟩
      | .rateLimit =>
        if attempt < max_attempts then
          retryGo f max_attempts base_delay exponential_base remaining
            (attempt + 1) (calls + 1)
            (sleeps ++ [base_delay * exponential_base ^ (attempt - 1)])
            (some e)
        else ⟨calls + 1, sleeps, .error e⟩
      | .apiError status =>
        match status with
        | some s =>
          if 500 ≤ s ∧ s < 600 then
            if attempt < max_attempts then
              retryGo f max_attempts base_delay exponential_base remaining
                (attempt + 1) (calls + 1)
                (sleeps ++ [base_delay * exponential_base ^ (attempt - 1)])
                (some e)
            else ⟨calls + 1, sleeps, .error e⟩
          else ⟨calls + 1, sleeps, .error e⟩
        | none => ⟨calls + 1, sleeps, .error e⟩
      | .authentication => ⟨calls + 1, sleeps, .error e⟩
      | .badRequest => ⟨calls + 1, sleeps, .error e⟩
      | .unexpected _ => ⟨calls + 1, sleeps, .error e⟩

/-- One call through the retry wrapper: attempts run from 1 to
max_attempts. -/
def call_with_retry (f : Nat → Except ProviderError String)
    (max_attempts : Nat) (base_delay exponential_base : ℚ) : RetryTrace :=
  retryGo f max_attempts base_delay exponential_base max_attempts 1 0 [] none

/-! ### resume_pass_1 (batch_processor.py lines 403-489) -/

/-- A Python value as held by the loop counters of resume_pass_1: an int
or a tuple of ints.  The source initializes batch_count, total_successful
and total_failed to the one-element tuple (0,) — lines 447-449. -/
inductive PyVal where
  | int (n : Int)
  | tup (elems : List Int)
deriving Repr, DecidableEq

/-- Python +: int+int adds, tuple+tuple concatenates, and a mixed
addition raises a TypeError — which is what batch_count += 1 hits. -/
def pyAdd : PyVal → PyVal → Except String PyVal
  | .int a, .int b => .ok (.int (a + b))
  | .tup a, .tup b => .ok (.tup (a ++ b))
  | .tup _, .int _ =>
    .error "TypeError: can only concatenate tuple (not int) to tuple"
  | .int _, .tup _ =>
    .error "TypeError: unsupported operand type for +: int and tuple"

/-- The fields of get_database_statistics the resume operation reads. -/
structure DbStatistics where
  total_products : Int
  processed_count : Int
  unprocessed_count : Int
deriving Repr, DecidableEq

/-- The two return shapes of resume_pass_1: the early return when nothing
is unprocessed (lines 431-439), and the summary built after the loop
(lines 476-486, wall-clock fields omitted). -/
inductive ResumeOutcome where
  | completeEarly (total_products processed_count : Int)
  | finished (total_products : Int) (processed failedTally batches : PyVal)
deriving Repr, DecidableEq

/-- The while-True loop of resume_pass_1 (lines 452-472).  runBatch k
gives (successful, failed, total_processed) of the k-th batch;
unprocAfter k the store's unprocessed count after it.  fuel bounds the
unbounded Python loop; none marks fuel exhaustion.  Each iteration, in
source order: batch_count += 1, the batch call, total_successful +=,
total_failed +=, the zero-processed break, the zero-remaining break. -/
def resumeLoop (runBatch : Nat → Nat × Nat × Nat) (unprocAfter : Nat → Int) :
    Nat → Nat → PyVal → PyVal → PyVal →
    Option (Except String (PyVal × PyVal × PyVal))
  | 0, _, _, _, _ => none
  | fuel + 1, k, bc, ts, tf =>
    match pyAdd bc (.int 1) with
    | .error e => some (.error e)
    | .ok bc2 =>
      match pyAdd ts (.int (runBatch k).1) with
      | .error e => some (.error e)
      | .ok ts2 =>
        match pyAdd tf (.int (runBatch k).2.1) with
        | .error e => some (.error e)
        | .ok tf2 =>
          if (runBatch k).2.2 = 0 then some (.ok (bc2, ts2, tf2))
          else if unprocAfter k = 0 then some (.ok (bc2, ts2, tf2))
          else resumeLoop runBatch unprocAfter fuel (k + 1) bc2 ts2 tf2

/-- resume_pass_1: early return when the store reports zero unprocessed
items, otherwise the loop starting from the tuple-initialized counters of
lines 447-449. -/
def resume_pass_1 (stats : DbStatistics) (runBatch : Nat → Nat × Nat × Nat)
    (unprocAfter : Nat → Int) (fuel : Nat) :
    Option (Except String ResumeOutcome) :=
  if stats.unprocessed_count = 0 then
    some (.ok (.completeEarly stats.total_products stats.processed_count))
  else
    match resumeLoop runBatch unprocAfter fuel 0
        (.tup [0]) (.tup [0]) (.tup [0]) with
    | none => none
    | some (.error e) => some (.error e)
    | some (.ok (bc, ts, tf)) =>
      some (.ok (.finished stats.total_products ts tf bc))

/-! ### Concrete inputs used by the witnesses -/

/-- A small well-formed hierarchy input. -/
def witnessItems : List HTSItem :=
  [⟨"7301", 0, "chapter heading"⟩, ⟨"7301.10", 1, "subheading"⟩,
    ⟨"7301.20", 1, "other subheading"⟩]

/-- Input with two indent-0 prefix candidates of different lengths. -/
def witnessItemsC1 : List HTSItem :=
  [⟨"73", 0, "short"⟩, ⟨"7301", 0, "longer"⟩, ⟨"7301.10", 1, "child"⟩]

/-- A rule store that always succeeds with no rules. -/
def emptyRuleStore : RuleStore :=
  ⟨fun _ => .ok [], fun _ => .ok []⟩

/-- A rule store whose every operation raises. -/
def failRuleStore : RuleStore :=
  ⟨fun _ => .error "rule store down", fun _ => .error "rule store down"⟩

/-- Five products sharing one classification code. -/
def fiveProducts : List Product :=
  [⟨"P1", some "7301.10"⟩, ⟨"P2", some "7301.10"⟩, ⟨"P3", some "7301.10"⟩,
    ⟨"P4", some "7301.10"⟩, ⟨"P5", some "7301.10"⟩]

/-- A pipeline environment in which every step succeeds except that the
structured extraction fails exactly on the response produced for item P3
(the provider echoes the item id, so the response of item k is k). -/
def failOnP3Env : PipelineEnv String String String where
  lookup := fun c => .ok (some c)
  build_user_prompt := fun p _ _ => .ok p.item_id
  call_api := fun s => .ok s
  extract_json_from_response := fun s =>
    if s = "P3" then .error "Invalid JSON response" else .ok s
  validate_llm_response := fun _ _ => .ok ⟨"Ductile Iron Spacer", "0.90", .high⟩
  flatten_for_database := fun _ id _ _ => .ok id
  update_processing_results := fun _ _ => .ok true

/-- A product store holding the five products. -/
def fiveDb : DbEnv := ⟨fun _ => fiveProducts, fun _ => fiveProducts⟩

/-- Twenty products whose classification codes take exactly the five
values A…E, four products per code. -/
def twentyProducts : List Product :=
  [⟨"P01", some "A"⟩, ⟨"P02", some "B"⟩, ⟨"P03", some "C"⟩,
    ⟨"P04", some "D"⟩, ⟨"P05", some "E"⟩, ⟨"P06", some "A"⟩,
    ⟨"P07", some "B"⟩, ⟨"P08", some "C"⟩, ⟨"P09", some "D"⟩,
    ⟨"P10", some "E"⟩, ⟨"P11", some "A"⟩, ⟨"P12", some "B"⟩,
    ⟨"P13", some "C"⟩, ⟨"P14", some "D"⟩, ⟨"P15", some "E"⟩,
    ⟨"P16", some "A"⟩, ⟨"P17", some "B"⟩, ⟨"P18", some "C"⟩,
    ⟨"P19", some "D"⟩, ⟨"P20", some "E"⟩]

/-- A product store holding the twenty products. -/
def twentyDb : DbEnv := ⟨fun _ => twentyProducts, fun _ => []⟩

/-- The codes-seen list: each product's classification code when present
(used to count distinct codes of a batch). -/
def codesOf (products : List Product) : List String :=
  products.filterMap Product.final_hts

/-- The keys of the batch cache. -/
def cacheKeys {Ctx : Type} (cache : List (String × Ctx)) : List String :=
  cache.map Prod.fst

/-- The cache-state component of one loop iteration. -/
def cacheStep {Ctx : Type} (lookup : String → Except String (Option Ctx))
    (cs : CacheState Ctx) (product : Product) : CacheState Ctx :=
  (get_hts_context_step lookup product cs).2

/-! ### Structural lemmas about the hierarchy builder -/

theorem HMap.adjust_apply (m : HMap) (k : String) (f : HNode → HNode)
    (c : String) :
    (m.adjust k f) c = if c = k then (m c).map f else m c := rfl

theorem HMap.insert_apply (m : HMap) (k : String) (v : HNode) (c : String) :
    (m.insert k v) c = if c = k then some v else m c := rfl

theorem initHMap_eq_foldl (hts_items : List HTSItem) :
    initHMap hts_items = hts_items.foldl initStep HMap.empty := rfl

theorem initFold_apply_of_notmem (l : List HTSItem) :
    ∀ (m : HMap) (c : String), (∀ it ∈ l, it.htsno ≠ c) →
      (l.foldl initStep m) c = m c := by
  induction l with
  | nil => intro m c _; rfl
  | cons it rest ih =>
    intro m c h
    have hit : it.htsno ≠ c := h it (List.mem_cons_self it rest)
    have := ih (initStep m it) c (fun x hx => h x (List.mem_cons_of_mem it hx))
    rw [List.foldl_cons, this, initStep, HMap.insert_apply,
      if_neg (fun hc => hit hc.symm)]

theorem initFold_spec (l : List HTSItem) :
    ∀ (m : HMap) (c : String) (nd : HNode), (l.foldl initStep m) c = some nd →
      m c = some nd ∨
        (nd.item ∈ l ∧ nd.item.htsno = c ∧ nd.parent = none ∧
          nd.children = []) := by
  induction l with
  | nil => intro m c nd h; exact Or.inl h
  | cons it rest ih =>
    intro m c nd h
    rcases ih (initStep m it) c nd h with h1 | h2
    · rw [initStep, HMap.insert_apply] at h1
      by_cases hc : c = it.htsno
      · rw [if_pos hc] at h1
        cases h1
        exact Or.inr ⟨List.mem_cons_self it rest, hc.symm, rfl, rfl⟩
      · rw [if_neg hc] at h1
        exact Or.inl h1
    · exact Or.inr ⟨List.mem_cons_of_mem it h2.1, h2.2⟩

theorem initFold_mem_nodup (l : List HTSItem) :
    ∀ (m : HMap) (e : HTSItem), e ∈ l → (l.map HTSItem.htsno).Nodup →
      (l.foldl initStep m) e.htsno = some ⟨e, none, []⟩ := by
  induction l with
  | nil => intro m e he _; cases he
  | cons it rest ih =>
    intro m e he hnd
    rw [List.map_cons, List.nodup_cons] at hnd
    rcases List.mem_cons.mp he with he1 | he2
    · subst he1
      have hrest : ∀ x ∈ rest, x.htsno ≠ e.htsno := by
        intro x hx hcontra
        exact hnd.1 (hcontra ▸ List.mem_map_of_mem HTSItem.htsno hx)
      rw [List.foldl_cons, initFold_apply_of_notmem rest _ _ hrest, initStep,
        HMap.insert_apply, if_pos rfl]
    · exact List.foldl_cons _ _ ▸ ih (initStep m it) e he2 hnd.2

theorem initFold_isSome_mono (l : List HTSItem) :
    ∀ (m : HMap) (c : String), (m c).isSome →
      ((l.foldl initStep m) c).isSome := by
  induction l with
  | nil => intro m c h; exact h
  | cons it rest ih =>
    intro m c h
    rw [List.foldl_cons]
    apply ih
    rw [initStep, HMap.insert_apply]
    by_cases hc : c = it.htsno
    · rw [if_pos hc]; rfl
    · rw [if_neg hc]; exact h

theorem initFold_isSome_of_mem (l : List HTSItem) :
    ∀ (m : HMap) (it : HTSItem), it ∈ l →
      ((l.foldl initStep m) it.htsno).isSome := by
  induction l with
  | nil => intro m it h; cases h
  | cons x rest ih =>
    intro m it h
    rcases List.mem_cons.mp h with h1 | h2
    · subst h1
      rw [List.foldl_cons]
      apply initFold_isSome_mono
      rw [initStep, HMap.insert_apply, if_pos rfl]; rfl
    · exact List.foldl_cons _ _ ▸ ih (initStep m x) it h2

theorem initHMap_isSome_iff (hts_items : List HTSItem) (c : String) :
    (initHMap hts_items c).isSome ↔ ∃ it ∈ hts_items, it.htsno = c := by
  constructor
  · intro h
    rcases Option.isSome_iff_exists.mp h with ⟨nd, hnd⟩
    rcases initFold_spec hts_items HMap.empty c nd hnd with h1 | h2
    · cases h1
    · exact ⟨nd.item, h2.1, h2.2.1⟩
  · rintro ⟨it, hit, hc⟩
    rw [initHMap_eq_foldl, ← hc]
    exact initFold_isSome_of_mem hts_items HMap.empty it hit

theorem assignParent_eq_none (hts_items : List HTSItem) (m : HMap)
    (idx : Nat) (it : HTSItem)
    (h : find_parent_code it.htsno it.indent idx hts_items = none) :
    assignParent hts_items m idx it = m := by
  unfold assignParent
  rw [h]

theorem assignParent_eq_some (hts_items : List HTSItem) (m : HMap)
    (idx : Nat) (it : HTSItem) (p : String)
    (h : find_parent_code it.htsno it.indent idx hts_items = some p) :
    assignParent hts_items m idx it =
      (m.adjust it.htsno (setParentFn p)).adjust p (addChildFn it.htsno) := by
  unfold assignParent
  rw [h]
  rfl

theorem adjust_setParent_map_item (m : HMap) (k p : String) (c : String) :
    ((m.adjust k (setParentFn p)) c).map HNode.item = (m c).map HNode.item := by
  rw [HMap.adjust_apply]
  by_cases hc : c = k
  · rw [if_pos hc, Option.map_map]; rfl
  · rw [if_neg hc]

theorem adjust_addChild_map_item (m : HMap) (k ch : String) (c : String) :
    ((m.adjust k (addChildFn ch)) c).map HNode.item = (m c).map HNode.item := by
  rw [HMap.adjust_apply]
  by_cases hc : c = k
  · rw [if_pos hc, Option.map_map]; rfl
  · rw [if_neg hc]

theorem adjust_addChild_map_parent (m : HMap) (k ch : String) (c : String) :
    ((m.adjust k (addChildFn ch)) c).map HNode.parent =
      (m c).map HNode.parent := by
  rw [HMap.adjust_apply]
  by_cases hc : c = k
  · rw [if_pos hc, Option.map_map]; rfl
  · rw [if_neg hc]

theorem adjust_setParent_map_parent_of_ne (m : HMap) (k p : String)
    (c : String) (hc : c ≠ k) :
    ((m.adjust k (setParentFn p)) c).map HNode.parent =
      (m c).map HNode.parent := by
  rw [HMap.adjust_apply, if_neg hc]

theorem assignParent_map_item (hts_items : List HTSItem) (m : HMap)
    (idx : Nat) (it : HTSItem) (c : String) :
    ((assignParent hts_items m idx it) c).map HNode.item =
      (m c).map HNode.item := by
  cases hf : find_parent_code it.htsno it.indent idx hts_items with
  | none => rw [assignParent_eq_none _ _ _ _ hf]
  | some p =>
    rw [assignParent_eq_some _ _ _ _ _ hf, adjust_addChild_map_item,
      adjust_setParent_map_item]

theorem assignParent_map_parent_of_ne (hts_items : List HTSItem) (m : HMap)
    (idx : Nat) (it : HTSItem) (c : String) (hc : it.htsno ≠ c) :
    ((assignParent hts_items m idx it) c).map HNode.parent =
      (m c).map HNode.parent := by
  cases hf : find_parent_code it.htsno it.indent idx hts_items with
  | none => rw [assignParent_eq_none _ _ _ _ hf]
  | some p =>
    rw [assignParent_eq_some _ _ _ _ _ hf, adjust_addChild_map_parent,
      adjust_setParent_map_parent_of_ne _ _ _ _ (fun h => hc h.symm)]

theorem assignParent_map_parent_self (hts_items : List HTSItem) (m : HMap)
    (idx : Nat) (it : HTSItem)
    (h : (m it.htsno).map HNode.parent = some none) :
    ((assignParent hts_items m idx it) it.htsno).map HNode.parent =
      some (find_parent_code it.htsno it.indent idx hts_items) := by
  cases hf : find_parent_code it.htsno it.indent idx hts_items with
  | none => rw [assignParent_eq_none _ _ _ _ hf, h]
  | some p =>
    rcases Option.map_eq_some'.mp h with ⟨nd, hnd, _⟩
    rw [assignParent_eq_some _ _ _ _ _ hf, adjust_addChild_map_parent,
      HMap.adjust_apply, if_pos rfl, hnd]
    rfl

theorem buildFrom_map_item (l : List HTSItem) :
    ∀ (hts_items : List HTSItem) (m : HMap) (idx : Nat) (c : String),
      ((buildFrom hts_items m idx l) c).map HNode.item =
        (m c).map HNode.item := by
  induction l with
  | nil => intro hts_items m idx c; rfl
  | cons it rest ih =>
    intro hts_items m idx c
    rw [buildFrom, ih, assignParent_map_item]

theorem buildFrom_map_parent_of_notmem (l : List HTSItem) :
    ∀ (hts_items : List HTSItem) (m : HMap) (idx : Nat) (c : String),
      (∀ it ∈ l, it.htsno ≠ c) →
      ((buildFrom hts_items m idx l) c).map HNode.parent =
        (m c).map HNode.parent := by
  induction l with
  | nil => intro hts_items m idx c _; rfl
  | cons it rest ih =>
    intro hts_items m idx c h
    rw [buildFrom, ih _ _ _ _ (fun x hx => h x (List.mem_cons_of_mem it hx)),
      assignParent_map_parent_of_ne _ _ _ _ _ (h it (List.mem_cons_self it rest))]

theorem buildFrom_append (l1 : List HTSItem) :
    ∀ (l2 hts_items : List HTSItem) (m : HMap) (idx : Nat),
      buildFrom hts_items m idx (l1 ++ l2) =
        buildFrom hts_items (buildFrom hts_items m idx l1) (idx + l1.length) l2 := by
  induction l1 with
  | nil => intro l2 hts_items m idx; rfl
  | cons it rest ih =>
    intro l2 hts_items m idx
    rw [List.cons_append, buildFrom, buildFrom, ih]
    have harg : idx + (it :: rest).length = idx + 1 + rest.length := by
      rw [List.length_cons]
      omega
    rw [harg]

theorem buildFrom_isSome (l : List HTSItem) (hts_items : List HTSItem)
    (m : HMap) (idx : Nat) (c : String) :
    ((buildFrom hts_items m idx l) c).isSome = (m c).isSome := by
  have h := buildFrom_map_item l hts_items m idx c
  cases h1 : (buildFrom hts_items m idx l) c <;> cases h2 : m c <;>
    rw [h1, h2] at h <;> simp_all

/-- The domain of the built map is exactly the set of input codes. -/
theorem build_isSome_iff (hts_items : List HTSItem) (c : String) :
    (build_hierarchy_map hts_items c).isSome ↔
      ∃ it ∈ hts_items, it.htsno = c := by
  rw [build_hierarchy_map, buildFrom_isSome]
  exact initHMap_isSome_iff hts_items c

/-- Every node of the built map carries an input entry whose code is its
key (no duplicate-freeness needed). -/
theorem build_item_mem (hts_items : List HTSItem) (c : String) (nd : HNode)
    (h : build_hierarchy_map hts_items c = some nd) :
    nd.item ∈ hts_items ∧ nd.item.htsno = c := by
  have hmap : (build_hierarchy_map hts_items c).map HNode.item =
      (initHMap hts_items c).map HNode.item := buildFrom_map_item _ _ _ _ _
  rw [h] at hmap
  cases hinit : initHMap hts_items c with
  | none => rw [hinit] at hmap; cases hmap
  | some nd0 =>
    rw [hinit] at hmap
    have hitem : nd.item = nd0.item := Option.some.inj hmap
    rcases initFold_spec hts_items HMap.empty c nd0 hinit with h1 | h2
    · cases h1
    · exact ⟨hitem ▸ h2.1, hitem ▸ h2.2.1⟩

theorem build_parent_char_aux (t d : List HTSItem) (e : HTSItem)
    (ht_ne : ∀ it ∈ t, it.htsno ≠ e.htsno)
    (hd_ne : ∀ it ∈ d, it.htsno ≠ e.htsno)
    (hinit : initHMap (t ++ e :: d) e.htsno = some ⟨e, none, []⟩) :
    ∃ nd, build_hierarchy_map (t ++ e :: d) e.htsno = some nd ∧ nd.item = e ∧
      nd.parent = find_parent_code e.htsno e.indent t.length (t ++ e :: d) := by
  set L := t ++ e :: d with hL
  have hbuild : build_hierarchy_map L =
      buildFrom L
        (assignParent L (buildFrom L (initHMap L) 0 t) t.length e)
        (t.length + 1) d := by
    rw [build_hierarchy_map]
    conv_lhs => rw [hL]
    rw [buildFrom_append, Nat.zero_add, buildFrom]
  set m1 := buildFrom L (initHMap L) 0 t with hm1
  set m2 := assignParent L m1 t.length e with hm2
  have hm1_item : (m1 e.htsno).map HNode.item = some e := by
    rw [hm1, buildFrom_map_item, hinit]
    rfl
  have hm1_parent : (m1 e.htsno).map HNode.parent = some none := by
    rw [hm1, buildFrom_map_parent_of_notmem t L (initHMap L) 0 e.htsno ht_ne,
      hinit]
    rfl
  have hfin_item :
      (build_hierarchy_map L e.htsno).map HNode.item = some e := by
    rw [hbuild, buildFrom_map_item, hm2, assignParent_map_item, hm1_item]
  have hfin_parent :
      (build_hierarchy_map L e.htsno).map HNode.parent =
        some (find_parent_code e.htsno e.indent t.length L) := by
    rw [hbuild, buildFrom_map_parent_of_notmem d L _ _ e.htsno hd_ne, hm2,
      assignParent_map_parent_self L m1 t.length e hm1_parent]
  rcases Option.map_eq_some'.mp hfin_item with ⟨nd, hnd, hnditem⟩
  refine ⟨nd, hnd, hnditem, ?_⟩
  rw [hnd] at hfin_parent
  exact Option.some.inj hfin_parent

/-- Core characterization of the builder under duplicate-free codes: the
node for the entry at position i holds that entry, and its parent is
exactly what _find_parent_code computed for it at its position. -/
theorem build_parent_char (hts_items : List HTSItem)
    (hnd : (hts_items.map HTSItem.htsno).Nodup) (i : Nat)
    (hi : i < hts_items.length) :
    ∃ nd, build_hierarchy_map hts_items (hts_items.get ⟨i, hi⟩).htsno = some nd ∧
      nd.item = hts_items.get ⟨i, hi⟩ ∧
      nd.parent = find_parent_code (hts_items.get ⟨i, hi⟩).htsno
        (hts_items.get ⟨i, hi⟩).indent i hts_items := by
  set e := hts_items.get ⟨i, hi⟩ with he
  have hsplit : hts_items = hts_items.take i ++ e :: hts_items.drop (i + 1) := by
    rw [he, List.cons_get_drop_succ, List.take_append_drop]
  have htlen : (hts_items.take i).length = i := by
    rw [List.length_take]
    omega
  have hmap := hnd
  rw [hsplit, List.map_append, List.map_cons, List.nodup_append] at hmap
  have ht_ne : ∀ it ∈ hts_items.take i, it.htsno ≠ e.htsno := by
    intro it hit hcontra
    exact (hmap.2.2 (List.mem_map_of_mem HTSItem.htsno hit))
      (hcontra ▸ List.mem_cons_self _ _)
  have hd_ne : ∀ it ∈ hts_items.drop (i + 1), it.htsno ≠ e.htsno := by
    intro it hit hcontra
    have := (List.nodup_cons.mp hmap.2.1).1
    exact this (hcontra ▸ List.mem_map_of_mem HTSItem.htsno hit)
  have hinit : initHMap hts_items e.htsno = some ⟨e, none, []⟩ := by
    rw [initHMap_eq_foldl]
    exact initFold_mem_nodup hts_items HMap.empty e
      (hsplit ▸ List.mem_append_right _ (List.mem_cons_self _ _)) hnd
  have := build_parent_char_aux (hts_items.take i) (hts_items.drop (i + 1)) e
    ht_ne hd_ne (hsplit ▸ hinit)
  rw [htlen] at this
  rw [hsplit]
  exact this

/-! ### Analysis of _find_parent_code -/

theorem bestMatchFold_eq_foldl (hts_code : String) (cands : List HTSItem) :
    bestMatchFold hts_code cands = cands.foldl (bmfStep hts_code) (none, 0) :=
  rfl

theorem bmf_go (hts_code : String) (cands : List HTSItem) :
    ∀ (acc : Option String × Nat),
      acc.2 ≤ (cands.foldl (bmfStep hts_code) acc).2 ∧
      (∀ c ∈ cands, strStartsWith hts_code c.htsno →
        c.htsno.data.length ≤ (cands.foldl (bmfStep hts_code) acc).2) ∧
      (cands.foldl (bmfStep hts_code) acc = acc ∨
        ∃ c ∈ cands, (cands.foldl (bmfStep hts_code) acc).1 = some c.htsno ∧
          (cands.foldl (bmfStep hts_code) acc).2 = c.htsno.data.length ∧
          strStartsWith hts_code c.htsno) := by
  induction cands with
  | nil =>
    intro acc
    exact ⟨le_refl _, fun c hc => absurd hc (List.not_mem_nil c), Or.inl rfl⟩
  | cons c rest ih =>
    intro acc
    rw [List.foldl_cons]
    rcases ih (bmfStep hts_code acc c) with ⟨ih1, ih2, ih3⟩
    have hstep : acc.2 ≤ (bmfStep hts_code acc c).2 := by
      rw [bmfStep]
      by_cases h : strStartsWith hts_code c.htsno ∧ acc.2 < c.htsno.data.length
      · rw [if_pos h]; exact le_of_lt h.2
      · rw [if_neg h]
    refine ⟨le_trans hstep ih1, ?_, ?_⟩
    · intro x hx hsw
      rcases List.mem_cons.mp hx with h1 | h2
      · subst h1
        by_cases h : strStartsWith hts_code x.htsno ∧ acc.2 < x.htsno.data.length
        · have : (bmfStep hts_code acc x).2 = x.htsno.data.length := by
            rw [bmfStep, if_pos h]
          exact this ▸ ih1
        · have hle : x.htsno.data.length ≤ acc.2 := by
            rcases Nat.lt_or_ge acc.2 x.htsno.data.length with hlt | hge
            · exact absurd ⟨hsw, hlt⟩ h
            · exact hge
          exact le_trans hle (le_trans hstep ih1)
      · exact ih2 x h2 hsw
    · rcases ih3 with heq | ⟨x, hx, hx1, hx2, hx3⟩
      · by_cases h : strStartsWith hts_code c.htsno ∧ acc.2 < c.htsno.data.length
        · refine Or.inr ⟨c, List.mem_cons_self c rest, ?_, ?_, h.1⟩
          · rw [heq, bmfStep, if_pos h]
          · rw [heq, bmfStep, if_pos h]
        · refine Or.inl ?_
          rw [heq, bmfStep, if_neg h]
      · exact Or.inr ⟨x, List.mem_cons_of_mem c hx, hx1, hx2, hx3⟩

theorem bestMatchFold_some_spec (hts_code : String) (cands : List HTSItem)
    (b : String) (h : (bestMatchFold hts_code cands).1 = some b) :
    ∃ c ∈ cands, c.htsno = b ∧ strStartsWith hts_code c.htsno ∧
      (bestMatchFold hts_code cands).2 = c.htsno.data.length := by
  rcases (bmf_go hts_code cands (none, 0)).2.2 with heq | ⟨c, hc, h1, h2, h3⟩
  · rw [bestMatchFold_eq_foldl, heq] at h
    cases h
  · rw [bestMatchFold_eq_foldl] at h
    rw [h1] at h
    exact ⟨c, hc, Option.some.inj h, h3, h2⟩

theorem string_data_length_pos (s : String) (h : s ≠ "") :
    0 < s.data.length := by
  cases s with
  | mk l =>
    cases l with
    | nil => exact absurd rfl h
    | cons a t => simp

theorem bestMatchFold_finds (hts_code : String) (cands : List HTSItem)
    (hc : ∃ c ∈ cands, c.htsno ≠ "" ∧ strStartsWith hts_code c.htsno) :
    ∃ b, (bestMatchFold hts_code cands).1 = some b := by
  rcases hc with ⟨c, hcmem, hcne, hcsw⟩
  have hlen : c.htsno.data.length ≤ (bestMatchFold hts_code cands).2 :=
    (bmf_go hts_code cands (none, 0)).2.1 c hcmem hcsw
  have hpos : 0 < (bestMatchFold hts_code cands).2 :=
    lt_of_lt_of_le (string_data_length_pos _ hcne) hlen
  rcases (bmf_go hts_code cands (none, 0)).2.2 with heq | ⟨x, _, h1, _, _⟩
  · rw [bestMatchFold_eq_foldl] at hpos
    rw [heq] at hpos
    cases hpos
  · exact ⟨x.htsno, (bestMatchFold_eq_foldl hts_code cands) ▸ h1⟩

theorem find_parent_some_mem (hts_code : String) (ind : Int) (idx : Nat)
    (hts_items : List HTSItem) (p : String)
    (h : find_parent_code hts_code ind idx hts_items = some p) :
    ∃ it ∈ hts_items, it.htsno = p ∧ it.indent < ind := by
  rw [find_parent_code] at h
  unfold find_parent_result at h
  by_cases hind : ind = 0
  · rw [if_pos hind] at h
    cases h
  · rw [if_neg hind] at h
    simp only [] at h
    cases hbm : (bestMatchFold hts_code
        (hts_items.filter (fun it => decide (it.indent = ind - 1)))).1 with
    | some b =>
      rw [hbm] at h
      have hp : b = p := Option.some.inj h
      rcases bestMatchFold_some_spec _ _ _ hbm with ⟨c, hcmem, hcb, _, _⟩
      rcases List.mem_filter.mp hcmem with ⟨hcitems, hcind⟩
      refine ⟨c, hcitems, hp ▸ hcb, ?_⟩
      have : c.indent = ind - 1 := of_decide_eq_true hcind
      omega
    | none =>
      rw [hbm] at h
      cases hf4 : (hts_items.take idx).reverse.find?
          (fun it => decide (it.indent < ind) &&
            decide (strStartsWith hts_code it.htsno)) with
      | some it =>
        rw [hf4] at h
        have hmem : it ∈ hts_items :=
          List.take_subset idx hts_items
            (List.mem_reverse.mp (List.mem_of_find?_eq_some hf4))
        have hpred := List.find?_some hf4
        rw [Bool.and_eq_true] at hpred
        exact ⟨it, hmem, Option.some.inj h, of_decide_eq_true hpred.1⟩
      | none =>
        rw [hf4] at h
        cases hf5 : (hts_items.take idx).reverse.find?
            (fun it => decide (it.indent < ind) &&
              decide (chapterOf hts_code = chapterOf it.htsno)) with
        | some it =>
          rw [hf5] at h
          have hmem : it ∈ hts_items :=
            List.take_subset idx hts_items
              (List.mem_reverse.mp (List.mem_of_find?_eq_some hf5))
          have hpred := List.find?_some hf5
          rw [Bool.and_eq_true] at hpred
          exact ⟨it, hmem, Option.some.inj h, of_decide_eq_true hpred.1⟩
        | none =>
          rw [hf5] at h
          cases h

theorem find_parent_prefix_case (hts_code : String) (ind : Int) (idx : Nat)
    (hts_items : List HTSItem) (hind : ind ≠ 0)
    (hc : ∃ c ∈ hts_items, c.indent = ind - 1 ∧ c.htsno ≠ "" ∧
      strStartsWith hts_code c.htsno) :
    ∃ p, find_parent_result hts_code ind idx hts_items =
        ParentResult.codePrefixMatch p ∧
      (∃ c ∈ hts_items, c.indent = ind - 1 ∧ c.htsno = p) ∧
      strStartsWith hts_code p ∧
      (∀ c ∈ hts_items, c.indent = ind - 1 → strStartsWith hts_code c.htsno →
        c.htsno.data.length ≤ p.data.length) := by
  set cands := hts_items.filter (fun it => decide (it.indent = ind - 1))
    with hcands
  have hmemcands : ∃ c ∈ cands, c.htsno ≠ "" ∧ strStartsWith hts_code c.htsno := by
    rcases hc with ⟨c, hcm, hci, hcn, hcs⟩
    exact ⟨c, List.mem_filter.mpr ⟨hcm, decide_eq_true hci⟩, hcn, hcs⟩
  rcases bestMatchFold_finds hts_code cands hmemcands with ⟨b, hb⟩
  rcases bestMatchFold_some_spec hts_code cands b hb with
    ⟨c, hcmem, hcb, hcsw, hclen⟩
  rcases List.mem_filter.mp hcmem with ⟨hcitems, hcind⟩
  refine ⟨b, ?_, ⟨c, hcitems, of_decide_eq_true hcind, hcb⟩, hcb ▸ hcsw, ?_⟩
  · unfold find_parent_result
    rw [if_neg hind]
    simp only []
    rw [← hcands, hb]
  · intro x hx hxi hxsw
    have hxcands : x ∈ cands := List.mem_filter.mpr ⟨hx, decide_eq_true hxi⟩
    have := (bmf_go hts_code cands (none, 0)).2.1 x hxcands hxsw
    rw [← bestMatchFold_eq_foldl, hclen, hcb] at this
    exact this

/-! ### Termination of the parent walk (claim C3 support) -/

/-- Under duplicate-free codes, every resolved parent points to a node
whose entry has a strictly lower indent. -/
theorem build_parent_lt (hts_items : List HTSItem)
    (hnd : (hts_items.map HTSItem.htsno).Nodup) (c : String) (nd : HNode)
    (p : String) (h : build_hierarchy_map hts_items c = some nd)
    (hp : nd.parent = some p) :
    ∃ nd', build_hierarchy_map hts_items p = some nd' ∧
      nd'.item.indent < nd.item.indent := by
  have hdom : (build_hierarchy_map hts_items c).isSome := by rw [h]; rfl
  rcases (build_isSome_iff hts_items c).mp hdom with ⟨it, hitmem, hitc⟩
  rcases List.mem_iff_get.mp hitmem with ⟨n, hn⟩
  rcases build_parent_char hts_items hnd n.1 n.2 with ⟨nd0, hnd0, hnd0item, hnd0par⟩
  have hgetc : (hts_items.get ⟨n.1, n.2⟩).htsno = c := by
    rw [← hitc]
    congr
  rw [hgetc, h] at hnd0
  have hndeq : nd = nd0 := Option.some.inj hnd0
  subst hndeq
  rw [hp] at hnd0par
  have hfind : find_parent_code (hts_items.get ⟨n.1, n.2⟩).htsno
      (hts_items.get ⟨n.1, n.2⟩).indent n.1 hts_items = some p := hnd0par.symm
  rcases find_parent_some_mem _ _ _ _ _ hfind with ⟨itp, hitpmem, hitpcode, hitplt⟩
  have hpdom : (build_hierarchy_map hts_items p).isSome :=
    (build_isSome_iff hts_items p).mpr ⟨itp, hitpmem, hitpcode⟩
  rcases Option.isSome_iff_exists.mp hpdom with ⟨nd', hnd'⟩
  refine ⟨nd', hnd', ?_⟩
  rcases List.mem_iff_get.mp hitpmem with ⟨j, hj⟩
  rcases build_parent_char hts_items hnd j.1 j.2 with ⟨nd1, hnd1, hnd1item, _⟩
  have hgetp : (hts_items.get ⟨j.1, j.2⟩).htsno = p := by
    rw [← hitpcode]
    congr
  rw [hgetp, hnd'] at hnd1
  have : nd' = nd1 := Option.some.inj hnd1
  subst this
  rw [hnd1item, hnd0item]
  have hje : hts_items.get ⟨j.1, j.2⟩ = itp := by rw [← hj]
  rw [hje]
  exact hitplt

theorem stepsToRoot_succ (m : HMap) (fuel : Nat) (c : String) :
    stepsToRoot m (fuel + 1) c =
      match m c with
      | none => none
      | some nd =>
        match nd.parent with
        | none => some 0
        | some p => (stepsToRoot m fuel p).map (· + 1) := rfl

theorem walkUp_succ (m : HMap) (fuel : Nat) (c : String) :
    walkUp m (fuel + 1) c =
      match m c with
      | none => none
      | some nd =>
        match nd.parent with
        | none => some [⟨c, nd.item.description, nd.item.indent⟩]
        | some p =>
          (walkUp m fuel p).map
            (fun rest => ⟨c, nd.item.description, nd.item.indent⟩ :: rest) := rfl

theorem stepsToRoot_eq_none (m : HMap) (fuel : Nat) (c : String)
    (hm : m c = none) : stepsToRoot m (fuel + 1) c = none := by
  rw [stepsToRoot_succ, hm]

theorem stepsToRoot_eq_root (m : HMap) (fuel : Nat) (c : String) (nd : HNode)
    (hm : m c = some nd) (hpar : nd.parent = none) :
    stepsToRoot m (fuel + 1) c = some 0 := by
  rw [stepsToRoot_succ, hm]
  dsimp only
  rw [hpar]

theorem stepsToRoot_eq_parent (m : HMap) (fuel : Nat) (c : String)
    (nd : HNode) (p : String) (hm : m c = some nd) (hpar : nd.parent = some p) :
    stepsToRoot m (fuel + 1) c = (stepsToRoot m fuel p).map (· + 1) := by
  rw [stepsToRoot_succ, hm]
  dsimp only
  rw [hpar]

theorem walkUp_eq_root (m : HMap) (fuel : Nat) (c : String) (nd : HNode)
    (hm : m c = some nd) (hpar : nd.parent = none) :
    walkUp m (fuel + 1) c = some [⟨c, nd.item.description, nd.item.indent⟩] := by
  rw [walkUp_succ, hm]
  dsimp only
  rw [hpar]

theorem walkUp_eq_parent (m : HMap) (fuel : Nat) (c : String) (nd : HNode)
    (p : String) (hm : m c = some nd) (hpar : nd.parent = some p) :
    walkUp m (fuel + 1) c =
      (walkUp m fuel p).map
        (fun rest => ⟨c, nd.item.description, nd.item.indent⟩ :: rest) := by
  rw [walkUp_succ, hm]
  dsimp only
  rw [hpar]

theorem stepsToRoot_mono (m : HMap) :
    ∀ (fuel fuel' : Nat) (c : String) (k : Nat),
      stepsToRoot m fuel c = some k → fuel ≤ fuel' →
      stepsToRoot m fuel' c = some k := by
  intro fuel
  induction fuel with
  | zero => intro fuel' c k h _; cases h
  | succ f ih =>
    intro fuel' c k h hle
    cases fuel' with
    | zero => omega
    | succ f' =>
      cases hm : m c with
      | none => rw [stepsToRoot_eq_none m f c hm] at h; cases h
      | some nd =>
        cases hpar : nd.parent with
        | none =>
          rw [stepsToRoot_eq_root m f c nd hm hpar] at h
          rw [stepsToRoot_eq_root m f' c nd hm hpar]
          exact h
        | some p =>
          rw [stepsToRoot_eq_parent m f c nd p hm hpar] at h
          rw [stepsToRoot_eq_parent m f' c nd p hm hpar]
          rcases Option.map_eq_some'.mp h with ⟨k0, hk0, hkk⟩
          rw [ih f' p k0 hk0 (by omega)]
          rw [← hkk]
          rfl

theorem walkUp_isSome_of_steps (m : HMap) :
    ∀ (fuel : Nat) (c : String) (k : Nat),
      stepsToRoot m fuel c = some k → (walkUp m fuel c).isSome := by
  intro fuel
  induction fuel with
  | zero => intro c k h; cases h
  | succ f ih =>
    intro c k h
    cases hm : m c with
    | none => rw [stepsToRoot_eq_none m f c hm] at h; cases h
    | some nd =>
      cases hpar : nd.parent with
      | none => rw [walkUp_eq_root m f c nd hm hpar]; rfl
      | some p =>
        rw [stepsToRoot_eq_parent m f c nd p hm hpar] at h
        rw [walkUp_eq_parent m f c nd p hm hpar]
        rcases Option.map_eq_some'.mp h with ⟨k0, hk0, _⟩
        rcases Option.isSome_iff_exists.mp (ih p k0 hk0) with ⟨path, hpath⟩
        rw [hpath]
        rfl

theorem le_foldl_max (l : List Nat) : ∀ (a : Nat), a ≤ l.foldl max a := by
  induction l with
  | nil => intro a; exact le_refl a
  | cons x rest ih =>
    intro a
    rw [List.foldl_cons]
    exact le_trans (le_max_left a x) (ih (max a x))

theorem mem_le_foldl_max (l : List Nat) :
    ∀ (a b : Nat), b ∈ l → b ≤ l.foldl max a := by
  induction l with
  | nil => intro a b h; cases h
  | cons x rest ih =>
    intro a b h
    rw [List.foldl_cons]
    rcases List.mem_cons.mp h with h1 | h2
    · subst h1
      exact le_trans (le_max_right a b) (le_foldl_max rest (max a b))
    · exact ih (max a x) b h2

theorem indent_le_maxIndentNat (hts_items : List HTSItem) (it : HTSItem)
    (h : it ∈ hts_items) : it.indent.toNat ≤ maxIndentNat hts_items :=
  mem_le_foldl_max _ 0 it.indent.toNat
    (List.mem_map_of_mem (fun x => x.indent.toNat) h)

/-! ### Reciprocity of parent/children links (claim C4 support) -/

theorem isSome_eq_of_map_item_eq (o1 o2 : Option HNode)
    (h : o1.map HNode.item = o2.map HNode.item) : o1.isSome = o2.isSome := by
  cases o1 <;> cases o2 <;> simp_all

theorem assignParent_isSome (hts_items : List HTSItem) (m : HMap) (idx : Nat)
    (it : HTSItem) (c : String) :
    ((assignParent hts_items m idx it) c).isSome = (m c).isSome :=
  isSome_eq_of_map_item_eq _ _ (assignParent_map_item hts_items m idx it c)

theorem assignParent_reciprocal (hts_items : List HTSItem) (m : HMap)
    (idx : Nat) (it : HTSItem)
    (hdom : ∀ x ∈ hts_items, (m x.htsno).isSome) (hrec : Reciprocal m) :
    Reciprocal (assignParent hts_items m idx it) := by
  cases hf : find_parent_code it.htsno it.indent idx hts_items with
  | none => rw [assignParent_eq_none _ _ _ _ hf]; exact hrec
  | some p =>
    rw [assignParent_eq_some _ _ _ _ _ hf]
    rcases find_parent_some_mem _ _ _ _ _ hf with ⟨itp, hitpmem, hitpcode, _⟩
    have hpdom : (m p).isSome := hitpcode ▸ hdom itp hitpmem
    rcases Option.isSome_iff_exists.mp hpdom with ⟨ndp, hndp⟩
    set ch := it.htsno with hch
    set m2 := (m.adjust ch (setParentFn p)).adjust p (addChildFn ch) with hm2
    -- children lists only ever grow from m to m2
    have hmono : ∀ (q : String) (ndq : HNode), m q = some ndq →
        ∃ ndq', m2 q = some ndq' ∧ ∀ x ∈ ndq.children, x ∈ ndq'.children := by
      intro q ndq hq
      rw [hm2, HMap.adjust_apply, HMap.adjust_apply]
      by_cases hqch : q = ch
      · rw [if_pos hqch, hq]
        by_cases hqp : q = p
        · rw [if_pos hqp]
          exact ⟨_, rfl, fun x hx => List.mem_append_left _ hx⟩
        · rw [if_neg hqp]
          exact ⟨_, rfl, fun x hx => hx⟩
      · rw [if_neg hqch, hq]
        by_cases hqp : q = p
        · rw [if_pos hqp]
          exact ⟨_, rfl, fun x hx => List.mem_append_left _ hx⟩
        · rw [if_neg hqp]
          exact ⟨_, rfl, fun x hx => hx⟩
    -- the child is in the children of its new parent in m2
    have hchild : ∃ ndp', m2 p = some ndp' ∧ ch ∈ ndp'.children := by
      rw [hm2, HMap.adjust_apply, if_pos rfl, HMap.adjust_apply]
      by_cases hpch : p = ch
      · rw [if_pos hpch, hndp]
        exact ⟨_, rfl, List.mem_append_right _ (List.mem_singleton.mpr rfl)⟩
      · rw [if_neg hpch, hndp]
        exact ⟨_, rfl, List.mem_append_right _ (List.mem_singleton.mpr rfl)⟩
    -- parents in m2: either inherited from m, or the freshly set one
    have hpar : ∀ (c0 : String) (nd0 : HNode), m2 c0 = some nd0 →
        (c0 = ch ∧ nd0.parent = some p) ∨
          (∃ ndo, m c0 = some ndo ∧ nd0.parent = ndo.parent) := by
      intro c0 nd0 h0
      rw [hm2, HMap.adjust_apply, HMap.adjust_apply] at h0
      by_cases hc0ch : c0 = ch
      · rw [if_pos hc0ch] at h0
        by_cases hc0p : c0 = p
        · rw [if_pos hc0p] at h0
          cases hmc0 : m c0 with
          | none => rw [hmc0] at h0; cases h0
          | some ndo =>
            rw [hmc0] at h0
            refine Or.inl ⟨hc0ch, ?_⟩
            have : nd0 = addChildFn ch (setParentFn p ndo) :=
              (Option.some.inj h0).symm
            rw [this]
            rfl
        · rw [if_neg hc0p] at h0
          cases hmc0 : m c0 with
          | none => rw [hmc0] at h0; cases h0
          | some ndo =>
            rw [hmc0] at h0
            refine Or.inl ⟨hc0ch, ?_⟩
            have : nd0 = setParentFn p ndo := (Option.some.inj h0).symm
            rw [this]
            rfl
      · rw [if_neg hc0ch] at h0
        by_cases hc0p : c0 = p
        · rw [if_pos hc0p] at h0
          cases hmc0 : m c0 with
          | none => rw [hmc0] at h0; cases h0
          | some ndo =>
            rw [hmc0] at h0
            refine Or.inr ⟨ndo, rfl, ?_⟩
            have : nd0 = addChildFn ch ndo := (Option.some.inj h0).symm
            rw [this]
            rfl
        · rw [if_neg hc0p] at h0
          exact Or.inr ⟨nd0, h0, rfl⟩
    intro c0 nd0 q h0 hq0
    rcases hpar c0 nd0 h0 with ⟨hc0ch, hnd0p⟩ | ⟨ndo, hndo, hpeq⟩
    · have hqp : q = p := by
        rw [hnd0p] at hq0
        exact (Option.some.inj hq0).symm
      rcases hchild with ⟨ndp', hndp', hchmem⟩
      subst hqp
      subst hc0ch
      exact ⟨ndp', hndp', hchmem⟩
    · rcases hrec c0 ndo q hndo (hpeq ▸ hq0) with ⟨ndq, hndq, hcmem⟩
      rcases hmono q ndq hndq with ⟨ndq', hndq', hsub⟩
      exact ⟨ndq', hndq', hsub c0 hcmem⟩

theorem buildFrom_reciprocal (l : List HTSItem) :
    ∀ (hts_items : List HTSItem) (m : HMap) (idx : Nat),
      (∀ x ∈ hts_items, (m x.htsno).isSome) → Reciprocal m →
      Reciprocal (buildFrom hts_items m idx l) := by
  induction l with
  | nil => intro hts_items m idx _ hrec; exact hrec
  | cons it rest ih =>
    intro hts_items m idx hdom hrec
    rw [buildFrom]
    refine ih hts_items _ (idx + 1) ?_ ?_
    · intro x hx
      rw [assignParent_isSome]
      exact hdom x hx
    · exact assignParent_reciprocal hts_items m idx it hdom hrec

/-- The built hierarchy map is reciprocal: whenever a node's parent is
resolved to p, the node's code appears in the children of p
(no duplicate-freeness is needed for this invariant). -/
theorem build_reciprocal (hts_items : List HTSItem) :
    Reciprocal (build_hierarchy_map hts_items) := by
  rw [build_hierarchy_map]
  refine buildFrom_reciprocal hts_items hts_items (initHMap hts_items) 0 ?_ ?_
  · intro x hx
    exact (initHMap_isSome_iff hts_items x.htsno).mpr ⟨x, hx, rfl⟩
  · intro c nd p hc hp
    rcases initFold_spec hts_items HMap.empty c nd hc with h1 | h2
    · cases h1
    · rw [h2.2.2.1] at hp
      cases hp

/-- Bounded parent walk: with duplicate-free codes and non-negative
indents, the walk from any code of the map reaches a parentless node in at
most nd.item.indent.toNat steps, provided the fuel exceeds that bound. -/
theorem stepsToRoot_bound (hts_items : List HTSItem)
    (hnd : (hts_items.map HTSItem.htsno).Nodup)
    (hnn : ∀ it ∈ hts_items, 0 ≤ it.indent) :
    ∀ (n : Nat) (c : String) (nd : HNode),
      build_hierarchy_map hts_items c = some nd →
      nd.item.indent.toNat ≤ n →
      ∀ (fuel : Nat), n < fuel →
        ∃ k, stepsToRoot (build_hierarchy_map hts_items) fuel c = some k ∧
          k ≤ nd.item.indent.toNat := by
  intro n
  induction n with
  | zero =>
    intro c nd h hlen fuel hfuel
    cases fuel with
    | zero => omega
    | succ f =>
      cases hpar : nd.parent with
      | none =>
        exact ⟨0, stepsToRoot_eq_root _ f c nd h hpar, Nat.zero_le _⟩
      | some p =>
        rcases build_parent_lt hts_items hnd c nd p h hpar with ⟨nd', hnd', hlt⟩
        have h0' : 0 ≤ nd'.item.indent :=
          hnn nd'.item (build_item_mem hts_items p nd' hnd').1
        omega
  | succ n ih =>
    intro c nd h hlen fuel hfuel
    cases fuel with
    | zero => omega
    | succ f =>
      cases hpar : nd.parent with
      | none =>
        exact ⟨0, stepsToRoot_eq_root _ f c nd h hpar, Nat.zero_le _⟩
      | some p =>
        rcases build_parent_lt hts_items hnd c nd p h hpar with ⟨nd', hnd', hlt⟩
        have h0' : 0 ≤ nd'.item.indent :=
          hnn nd'.item (build_item_mem hts_items p nd' hnd').1
        have hlen' : nd'.item.indent.toNat ≤ n := by omega
        rcases ih p nd' hnd' hlen' f (by omega) with ⟨k', hk', hk'le⟩
        refine ⟨k' + 1, ?_, by omega⟩
        rw [stepsToRoot_eq_parent _ f c nd p h hpar, hk']
        rfl

theorem get_hts_context_model_notfound (hts_items : List HTSItem)
    (code : String) (h : build_hierarchy_map hts_items code = none) :
    get_hts_context_model hts_items code =
      some ⟨code, false, [], some "HTS code not found in reference data"⟩ := by
  simp only [get_hts_context_model]
  rw [h]

theorem get_hts_context_model_rootlevel (hts_items : List HTSItem)
    (code : String) (nd : HNode)
    (h : build_hierarchy_map hts_items code = some nd)
    (hpar : nd.parent = none) :
    get_hts_context_model hts_items code =
      some ⟨code, true, [⟨code, nd.item.description, nd.item.indent⟩], none⟩ := by
  simp only [get_hts_context_model]
  rw [h, walkUp_eq_root _ (maxIndentNat hts_items + hts_items.length) code nd h
    hpar]
  rfl

/-! ### Claim theorems -/

/-- C1: for every entry with indentLevel > 0 that has at least one
candidate entry at indentLevel - 1 whose code is a string-prefix of the
entry's code, the hierarchy builder assigns as parent a prefix-matching
candidate of maximal code length, and records it as a prefix match.
Hypotheses hnd and hne record the Reference Loader's guarantees on the
builder's input (unique codes, codes of length at least 4, hence
non-empty). -/
theorem claim_C1_longest_prefix_parent (hts_items : List HTSItem)
    (hnd : (hts_items.map HTSItem.htsno).Nodup)
    (hne : ∀ it ∈ hts_items, it.htsno ≠ "")
    (i : Nat) (hi : i < hts_items.length) (e : HTSItem)
    (he : hts_items.get ⟨i, hi⟩ = e) (hind : 0 < e.indent)
    (hcand : ∃ c ∈ hts_items, c.indent = e.indent - 1 ∧
      strStartsWith e.htsno c.htsno) :
    ∃ p nd,
      find_parent_result e.htsno e.indent i hts_items =
        ParentResult.codePrefixMatch p ∧
      build_hierarchy_map hts_items e.htsno = some nd ∧ nd.parent = some p ∧
      (∃ c ∈ hts_items, c.indent = e.indent - 1 ∧ c.htsno = p) ∧
      strStartsWith e.htsno p ∧
      ∀ c ∈ hts_items, c.indent = e.indent - 1 →
        strStartsWith e.htsno c.htsno →
        c.htsno.data.length ≤ p.data.length := by
  subst he
  set e := hts_items.get ⟨i, hi⟩ with he
  have hind0 : e.indent ≠ 0 := by omega
  have hcand' : ∃ c ∈ hts_items, c.indent = e.indent - 1 ∧ c.htsno ≠ "" ∧
      strStartsWith e.htsno c.htsno := by
    rcases hcand with ⟨c, hcm, hci, hcs⟩
    exact ⟨c, hcm, hci, hne c hcm, hcs⟩
  rcases find_parent_prefix_case e.htsno e.indent i hts_items hind0 hcand' with
    ⟨p, hres, hpcand, hpsw, hmax⟩
  rcases build_parent_char hts_items hnd i hi with ⟨nd, hbuild, _, hparent⟩
  refine ⟨p, nd, hres, hbuild, ?_, hpcand, hpsw, hmax⟩
  rw [hparent, find_parent_code, hres]
  rfl

/-- C1 witness: in witnessItemsC1, the entry "7301.10" at position 2 has
two indent-0 prefix candidates "73" and "7301"; the builder picks the
longer one, "7301", as a prefix match. -/
theorem claim_C1_witness :
    ∃ p nd,
      find_parent_result "7301.10" 1 2 witnessItemsC1 =
        ParentResult.codePrefixMatch p ∧
      build_hierarchy_map witnessItemsC1 "7301.10" = some nd ∧
      nd.parent = some p ∧
      (∃ c ∈ witnessItemsC1, c.indent = 1 - 1 ∧ c.htsno = p) ∧
      strStartsWith "7301.10" p ∧
      ∀ c ∈ witnessItemsC1, c.indent = 1 - 1 →
        strStartsWith "7301.10" c.htsno →
        c.htsno.data.length ≤ p.data.length :=
  claim_C1_longest_prefix_parent witnessItemsC1 (by decide) (by decide) 2
    (by decide) ⟨"7301.10", 1, "child"⟩ (by decide) (by decide) (by decide)

/-- C3: with duplicate-free codes and non-negative indent levels, every
resolved parent has strictly lower indent than its child, and following
parent pointers from any code of the built map reaches a parentless node
in at most maxIndentNat steps; consequently the getContext traversal
terminates. -/
theorem claim_C3_walk_bounded (hts_items : List HTSItem)
    (hnd : (hts_items.map HTSItem.htsno).Nodup)
    (hnn : ∀ it ∈ hts_items, 0 ≤ it.indent) :
    (∀ (c : String) (nd : HNode) (p : String),
      build_hierarchy_map hts_items c = some nd → nd.parent = some p →
      ∃ nd', build_hierarchy_map hts_items p = some nd' ∧
        nd'.item.indent < nd.item.indent) ∧
    ∀ (c : String) (nd : HNode),
      build_hierarchy_map hts_items c = some nd →
      ∃ k, stepsToRoot (build_hierarchy_map hts_items)
          (maxIndentNat hts_items + 1) c = some k ∧
        k ≤ maxIndentNat hts_items ∧
        (get_hts_context_model hts_items c).isSome := by
  refine ⟨fun c nd p h hp => build_parent_lt hts_items hnd c nd p h hp, ?_⟩
  intro c nd h
  have hmem := build_item_mem hts_items c nd h
  have hmax : nd.item.indent.toNat ≤ maxIndentNat hts_items :=
    indent_le_maxIndentNat hts_items nd.item hmem.1
  rcases stepsToRoot_bound hts_items hnd hnn (maxIndentNat hts_items) c nd h
    hmax (maxIndentNat hts_items + 1) (by omega) with ⟨k, hk, hkle⟩
  refine ⟨k, hk, le_trans hkle hmax, ?_⟩
  simp only [get_hts_context_model]
  rw [h]
  have hsteps := stepsToRoot_mono (build_hierarchy_map hts_items)
    (maxIndentNat hts_items + 1)
    (maxIndentNat hts_items + hts_items.length + 1) c k hk (by omega)
  have hwalk := walkUp_isSome_of_steps (build_hierarchy_map hts_items)
    (maxIndentNat hts_items + hts_items.length + 1) c k hsteps
  rcases Option.isSome_iff_exists.mp hwalk with ⟨path, hpath⟩
  rw [hpath]
  rfl

/-- C3 witness at a concrete two-level hierarchy: the walk from
"7301.10" reaches the root in 1 ≤ maxIndentNat steps. -/
theorem claim_C3_witness :
    ∃ k, stepsToRoot (build_hierarchy_map witnessItems)
        (maxIndentNat witnessItems + 1) "7301.10" = some k ∧
      k ≤ maxIndentNat witnessItems ∧
      (get_hts_context_model witnessItems "7301.10").isSome :=
  (claim_C3_walk_bounded witnessItems (by decide) (by decide)).2 "7301.10"
    ⟨⟨"7301.10", 1, "subheading"⟩, some "7301", []⟩ (by decide)

/-- C4: in every hierarchy map returned by the builder, reciprocity
holds — whenever a node's parent is resolved to p, the node's code is a
member of the children list of the node for p. -/
theorem claim_C4_reciprocity (hts_items : List HTSItem) (c : String)
    (nd : HNode) (p : String)
    (h : build_hierarchy_map hts_items c = some nd)
    (hp : nd.parent = some p) :
    ∃ nd', build_hierarchy_map hts_items p = some nd' ∧ c ∈ nd'.children :=
  build_reciprocal hts_items c nd p h hp

/-- C4 witness: "7301.10" has parent "7301" in the witness hierarchy, and
it indeed appears among the children of "7301". -/
theorem claim_C4_witness :
    ∃ nd', build_hierarchy_map witnessItems "7301" = some nd' ∧
      "7301.10" ∈ nd'.children :=
  claim_C4_reciprocity witnessItems "7301.10"
    ⟨⟨"7301.10", 1, "subheading"⟩, some "7301", []⟩ "7301" (by decide)
    (by decide)

/-- C7 counterexample: on a code absent from the map the service returns
found = false and an empty path, but the error message is the literal
"HTS code not found in reference data" (service.py line 86), not the
message "code not found" stated by the claim. -/
theorem claim_C7_cex :
    get_hts_context_model [] "0000" =
      some ⟨"0000", false, [], some "HTS code not found in reference data"⟩ ∧
    (some "HTS code not found in reference data" : Option String) ≠
      some "code not found" :=
  ⟨by decide, by decide⟩

/-- C7 amended: for every code absent from the hierarchy map, getContext
returns found = false, an empty path and the error message "HTS code not
found in reference data"; for every code present at root level
(indent 0, no parent) it returns found = true with a single-element path
whose element has indent level 0. -/
theorem claim_C7_amended (hts_items : List HTSItem) (code : String) :
    (build_hierarchy_map hts_items code = none →
      get_hts_context_model hts_items code =
        some ⟨code, false, [], some "HTS code not found in reference data"⟩) ∧
    ∀ nd : HNode, build_hierarchy_map hts_items code = some nd →
      nd.item.indent = 0 → nd.parent = none →
      get_hts_context_model hts_items code =
        some ⟨code, true, [⟨code, nd.item.description, 0⟩], none⟩ := by
  refine ⟨fun h => get_hts_context_model_notfound hts_items code h, ?_⟩
  intro nd h hind hpar
  rw [get_hts_context_model_rootlevel hts_items code nd h hpar, hind]

/-- C7 witness: the amended statement applied to a missing code and to the
root-level code "7301" of the witness hierarchy. -/
theorem claim_C7_witness :
    get_hts_context_model witnessItems "9999" =
      some ⟨"9999", false, [], some "HTS code not found in reference data"⟩ ∧
    get_hts_context_model witnessItems "7301" =
      some ⟨"7301", true, [⟨"7301", "chapter heading", 0⟩], none⟩ :=
  ⟨(claim_C7_amended witnessItems "9999").1 (by decide),
    (claim_C7_amended witnessItems "7301").2
      ⟨⟨"7301", 0, "chapter heading"⟩, none, ["7301.10", "7301.20"]⟩
      (by decide) (by decide) (by decide)⟩

/-! ### Loop lemmas for the batch orchestrator -/

theorem processOne_ok {Ctx Raw Upd : Type} (env : PipelineEnv Ctx Raw Upd)
    (rules : List Rule) (pass_number : Int) (st : LoopState Ctx)
    (product : Product) (lvl : ConfLevel) (score : String)
    (h : runPipeline env rules pass_number product
      (get_hts_context_step env.lookup product st.cs).1 = .ok (lvl, score)) :
    processOne env rules pass_number st product =
      { cs := (get_hts_context_step env.lookup product st.cs).2,
        results := st.results ++
          [⟨product.item_id, true, some lvl, some score, none⟩],
        successful := st.successful + 1,
        failed := st.failed,
        dist := st.dist.bump lvl } := by
  unfold processOne
  rw [h]

theorem processOne_error {Ctx Raw Upd : Type} (env : PipelineEnv Ctx Raw Upd)
    (rules : List Rule) (pass_number : Int) (st : LoopState Ctx)
    (product : Product) (msg : String)
    (h : runPipeline env rules pass_number product
      (get_hts_context_step env.lookup product st.cs).1 = .error msg) :
    processOne env rules pass_number st product =
      { cs := (get_hts_context_step env.lookup product st.cs).2,
        results := st.results ++
          [⟨product.item_id, false, none, none, some msg⟩],
        successful := st.successful,
        failed := st.failed + 1,
        dist := st.dist } := by
  unfold processOne
  rw [h]

/-- Every loop iteration appends exactly one outcome for its product,
accounts it as exactly one success or failure, and a failure outcome
always carries an error message. -/
theorem processOne_step_facts {Ctx Raw Upd : Type}
    (env : PipelineEnv Ctx Raw Upd) (rules : List Rule) (pass_number : Int)
    (st : LoopState Ctx) (product : Product) :
    ∃ r : ProductResult,
      (processOne env rules pass_number st product).results =
        st.results ++ [r] ∧
      r.item_id = product.item_id ∧
      (processOne env rules pass_number st product).successful +
        (processOne env rules pass_number st product).failed =
        st.successful + st.failed + 1 ∧
      (r.success = false → ∃ msg, r.error = some msg) := by
  cases h : runPipeline env rules pass_number product
      (get_hts_context_step env.lookup product st.cs).1 with
  | ok v =>
    rcases v with ⟨lvl, score⟩
    rw [processOne_ok env rules pass_number st product lvl score h]
    exact ⟨_, rfl, rfl, by dsimp only; omega, fun hf => by cases hf⟩
  | error msg =>
    rw [processOne_error env rules pass_number st product msg h]
    exact ⟨_, rfl, rfl, by dsimp only; omega, fun _ => ⟨msg, rfl⟩⟩

theorem processOne_cs {Ctx Raw Upd : Type} (env : PipelineEnv Ctx Raw Upd)
    (rules : List Rule) (pass_number : Int) (st : LoopState Ctx)
    (product : Product) :
    (processOne env rules pass_number st product).cs =
      (get_hts_context_step env.lookup product st.cs).2 := by
  cases h : runPipeline env rules pass_number product
      (get_hts_context_step env.lookup product st.cs).1 with
  | ok v =>
    rcases v with ⟨lvl, score⟩
    rw [processOne_ok env rules pass_number st product lvl score h]
  | error msg =>
    rw [processOne_error env rules pass_number st product msg h]

/-- Aggregate facts of the whole loop, for any starting state: one
outcome per product, in input order, and success/failure counts that sum
to the number of products. -/
theorem processLoop_facts {Ctx Raw Upd : Type} (env : PipelineEnv Ctx Raw Upd)
    (rules : List Rule) (pass_number : Int) :
    ∀ (products : List Product) (st : LoopState Ctx),
      (products.foldl (processOne env rules pass_number) st).results.map
          ProductResult.item_id =
        st.results.map ProductResult.item_id ++
          products.map Product.item_id ∧
      (products.foldl (processOne env rules pass_number) st).successful +
          (products.foldl (processOne env rules pass_number) st).failed =
        st.successful + st.failed + products.length := by
  intro products
  induction products with
  | nil =>
    intro st
    exact ⟨(List.append_nil _).symm, rfl⟩
  | cons p rest ih =>
    intro st
    rw [List.foldl_cons]
    rcases ih (processOne env rules pass_number st p) with ⟨ih1, ih2⟩
    rcases processOne_step_facts env rules pass_number st p with
      ⟨r, hres, hid, hcount, _⟩
    constructor
    · rw [ih1, hres, List.map_append, List.map_cons, List.map_cons]
      rw [List.append_assoc]
      simp [hid]
    · rw [ih2, hcount, List.length_cons]
      omega

/-- Failure outcomes of the loop always carry an error message. -/
theorem processLoop_failures {Ctx Raw Upd : Type}
    (env : PipelineEnv Ctx Raw Upd) (rules : List Rule) (pass_number : Int) :
    ∀ (products : List Product) (st : LoopState Ctx),
      (∀ r ∈ st.results, r.success = false → ∃ msg, r.error = some msg) →
      ∀ r ∈ (products.foldl (processOne env rules pass_number) st).results,
        r.success = false → ∃ msg, r.error = some msg := by
  intro products
  induction products with
  | nil => intro st h; exact h
  | cons p rest ih =>
    intro st h
    rw [List.foldl_cons]
    refine ih (processOne env rules pass_number st p) ?_
    rcases processOne_step_facts env rules pass_number st p with
      ⟨r0, hres, _, _, hmsg⟩
    intro r hr
    rw [hres] at hr
    rcases List.mem_append.mp hr with h1 | h2
    · exact h r h1
    · rw [List.mem_singleton.mp h2]
      exact hmsg

/-- The cache state evolves by the cache step alone, independently of the
pipeline outcomes. -/
theorem processLoop_cs {Ctx Raw Upd : Type} (env : PipelineEnv Ctx Raw Upd)
    (rules : List Rule) (pass_number : Int) :
    ∀ (products : List Product) (st : LoopState Ctx),
      (products.foldl (processOne env rules pass_number) st).cs =
        products.foldl (cacheStep env.lookup) st.cs := by
  intro products
  induction products with
  | nil => intro st; rfl
  | cons p rest ih =>
    intro st
    rw [List.foldl_cons, List.foldl_cons, ih]
    rw [show (processOne env rules pass_number st p).cs =
      cacheStep env.lookup st.cs p from
      processOne_cs env rules pass_number st p]

/-- C2: per-item failure isolation.  First, in general: the loop emits
exactly one outcome per product, in order; success and failure counts sum
to the batch length; a failure outcome always carries the exception
message (the embedding of the loop is a total function — the statement
that no per-item exception escapes process_batch).  Second, concretely:
in a 5-item batch in which exactly item 3's response fails structured
extraction, the report has successful = 4 and failed = 1. -/
theorem claim_C2_failure_isolation :
    (∀ (Ctx Raw Upd : Type) (env : PipelineEnv Ctx Raw Upd)
      (rules : List Rule) (pass_number : Int) (products : List Product),
      (processItems env rules pass_number products).results.map
          ProductResult.item_id = products.map Product.item_id ∧
      (processItems env rules pass_number products).successful +
          (processItems env rules pass_number products).failed =
        products.length ∧
      (∀ r ∈ (processItems env rules pass_number products).results,
        r.success = false → ∃ msg, r.error = some msg)) ∧
    (process_batch fiveDb failOnP3Env emptyRuleStore 5 1 none none).1.successful
        = 4 ∧
    (process_batch fiveDb failOnP3Env emptyRuleStore 5 1 none none).1.failed
        = 1 ∧
    (process_batch fiveDb failOnP3Env emptyRuleStore 5 1 none
        none).1.total_processed = 5 ∧
    (process_batch fiveDb failOnP3Env emptyRuleStore 5 1 none
        none).1.results.get? 2 =
      some ⟨"P3", false, none, none, some "Invalid JSON response"⟩ := by
  refine ⟨?_, by decide, by decide, by decide, by decide⟩
  intro Ctx Raw Upd env rules pass_number products
  rcases processLoop_facts env rules pass_number products
    (LoopState.start Ctx) with ⟨h1, h2⟩
  refine ⟨?_, ?_, ?_⟩
  · rw [processItems, h1]
    rfl
  · rw [processItems, h2]
    dsimp only [LoopState.start]
    omega
  · exact processLoop_failures env rules pass_number products
      (LoopState.start Ctx) (fun r hr => absurd hr (List.not_mem_nil r))

/-- C2 witness: the isolation statement applied to the concrete 5-item
batch environment. -/
theorem claim_C2_witness :
    (processItems failOnP3Env [] 1 fiveProducts).successful +
        (processItems failOnP3Env [] 1 fiveProducts).failed = 5 ∧
    (process_batch fiveDb failOnP3Env emptyRuleStore 5 1 none
        none).1.successful = 4 :=
  ⟨(claim_C2_failure_isolation.1 String String String failOnP3Env [] 1
      fiveProducts).2.1,
    claim_C2_failure_isolation.2.1⟩

/-! ### Cache accounting (claim C5 support) -/

theorem findCached_isSome_iff {Ctx : Type} (cache : List (String × Ctx))
    (code : String) :
    (findCached cache code).isSome ↔ code ∈ cacheKeys cache := by
  induction cache with
  | nil => simp [findCached, cacheKeys]
  | cons kv rest ih =>
    rcases kv with ⟨k, v⟩
    rw [findCached]
    by_cases hk : k = code
    · simp [hk, cacheKeys]
    · rw [if_neg hk]
      simp only [cacheKeys, List.map_cons, List.mem_cons]
      rw [ih]
      constructor
      · intro h; exact Or.inr h
      · rintro (h | h)
        · exact absurd h.symm hk
        · exact h

theorem step_no_code {Ctx : Type} (lookup : String → Except String (Option Ctx))
    (product : Product) (st : CacheState Ctx) (h : product.final_hts = none) :
    get_hts_context_step lookup product st = (none, st) := by
  unfold get_hts_context_step
  rw [h]

theorem step_empty_code {Ctx : Type}
    (lookup : String → Except String (Option Ctx)) (product : Product)
    (st : CacheState Ctx) (h : product.final_hts = some "") :
    get_hts_context_step lookup product st = (none, st) := by
  unfold get_hts_context_step
  rw [h]
  dsimp only
  rw [if_pos rfl]

theorem step_hit {Ctx : Type} (lookup : String → Except String (Option Ctx))
    (product : Product) (st : CacheState Ctx) (code : String) (ctx : Ctx)
    (h : product.final_hts = some code) (hne : code ≠ "")
    (hc : findCached st.cache code = some ctx) :
    get_hts_context_step lookup product st =
      (some ctx, { st with hits := st.hits + 1 }) := by
  unfold get_hts_context_step
  rw [h]
  dsimp only
  rw [if_neg hne, hc]

theorem step_miss_error {Ctx : Type}
    (lookup : String → Except String (Option Ctx)) (product : Product)
    (st : CacheState Ctx) (code : String) (msg : String)
    (h : product.final_hts = some code) (hne : code ≠ "")
    (hc : findCached st.cache code = none) (hl : lookup code = .error msg) :
    get_hts_context_step lookup product st =
      (none, { st with misses := st.misses + 1, svcCalls := st.svcCalls + 1 }) := by
  unfold get_hts_context_step
  rw [h]
  dsimp only
  rw [if_neg hne, hc, hl]

theorem step_miss_none {Ctx : Type}
    (lookup : String → Except String (Option Ctx)) (product : Product)
    (st : CacheState Ctx) (code : String)
    (h : product.final_hts = some code) (hne : code ≠ "")
    (hc : findCached st.cache code = none) (hl : lookup code = .ok none) :
    get_hts_context_step lookup product st =
      (none, { st with misses := st.misses + 1, svcCalls := st.svcCalls + 1 }) := by
  unfold get_hts_context_step
  rw [h]
  dsimp only
  rw [if_neg hne, hc, hl]

theorem step_miss_some {Ctx : Type}
    (lookup : String → Except String (Option Ctx)) (product : Product)
    (st : CacheState Ctx) (code : String) (ctx : Ctx)
    (h : product.final_hts = some code) (hne : code ≠ "")
    (hc : findCached st.cache code = none) (hl : lookup code = .ok (some ctx)) :
    get_hts_context_step lookup product st =
      (some ctx,
        { st with
            misses := st.misses + 1
            svcCalls := st.svcCalls + 1
            cache := st.cache ++ [(code, ctx)] }) := by
  unfold get_hts_context_step
  rw [h]
  dsimp only
  rw [if_neg hne, hc, hl]

theorem codesOf_cons_some (p : Product) (rest : List Product) (c : String)
    (h : p.final_hts = some c) :
    codesOf (p :: rest) = c :: codesOf rest := by
  simp [codesOf, List.filterMap_cons, h]

theorem card_codes_sdiff_le (l : List Product) (K : Finset String) :
    ((codesOf l).toFinset \ K).card ≤ l.length :=
  le_trans (Finset.card_le_card (Finset.sdiff_subset))
    (le_trans (List.toFinset_card_le (codesOf l))
      (List.length_filterMap_le Product.final_hts l))

theorem insert_sdiff_card (Cr K : Finset String) (c : String) (hcK : c ∉ K) :
    (insert c Cr \ K).card = (Cr \ insert c K).card + 1 := by
  have hident : insert c Cr \ K = insert c (Cr \ insert c K) := by
    ext x
    simp only [Finset.mem_sdiff, Finset.mem_insert]
    constructor
    · rintro ⟨hx1 | hx1, hx2⟩
      · exact Or.inl hx1
      · by_cases hxc : x = c
        · exact Or.inl hxc
        · exact Or.inr ⟨hx1, fun h => (h.elim hxc fun hh => hx2 hh)⟩
    · rintro (hx | ⟨hx1, hx2⟩)
      · exact ⟨Or.inl hx, hx ▸ hcK⟩
      · exact ⟨Or.inr hx1, fun h => hx2 (Or.inr h)⟩
  rw [hident, Finset.card_insert_of_not_mem]
  intro hmem
  exact (Finset.mem_sdiff.mp hmem).2 (Finset.mem_insert_self c K)

/-- Cache accounting over a whole batch: when every product carries a
non-empty code and the lookup collaborator is total and non-null, the
misses (= underlying service calls) count exactly the distinct codes not
yet cached, and every other resolution is a hit. -/
theorem cacheFold_counts {Ctx : Type}
    (lookup : String → Except String (Option Ctx))
    (hlk : ∀ code, ∃ v, lookup code = .ok (some v)) :
    ∀ (products : List Product) (st : CacheState Ctx),
      (∀ p ∈ products, ∃ c, p.final_hts = some c ∧ c ≠ "") →
      (products.foldl (cacheStep lookup) st).misses =
        st.misses + ((codesOf products).toFinset \
          (cacheKeys st.cache).toFinset).card ∧
      (products.foldl (cacheStep lookup) st).hits =
        st.hits + (products.length - ((codesOf products).toFinset \
          (cacheKeys st.cache).toFinset).card) ∧
      (products.foldl (cacheStep lookup) st).svcCalls =
        st.svcCalls + ((codesOf products).toFinset \
          (cacheKeys st.cache).toFinset).card := by
  intro products
  induction products with
  | nil =>
    intro st _
    simp [codesOf]
  | cons p rest ih =>
    intro st hcodes
    rcases hcodes p (List.mem_cons_self p rest) with ⟨c, hc, hcne⟩
    have hcodesrest : ∀ q ∈ rest, ∃ c0, q.final_hts = some c0 ∧ c0 ≠ "" :=
      fun q hq => hcodes q (List.mem_cons_of_mem p hq)
    rw [List.foldl_cons, codesOf_cons_some p rest c hc, List.toFinset_cons]
    cases hfc : findCached st.cache c with
    | some ctx =>
      have hstep : cacheStep lookup st p = { st with hits := st.hits + 1 } := by
        rw [cacheStep, step_hit lookup p st c ctx hc hcne hfc]
      rw [hstep]
      rcases ih { st with hits := st.hits + 1 } hcodesrest with ⟨ih1, ih2, ih3⟩
      have hcK : c ∈ (cacheKeys st.cache).toFinset :=
        List.mem_toFinset.mpr ((findCached_isSome_iff st.cache c).mp
          (by rw [hfc]; rfl))
      have hins : insert c (codesOf rest).toFinset \
          (cacheKeys st.cache).toFinset =
          (codesOf rest).toFinset \ (cacheKeys st.cache).toFinset := by
        ext x
        simp only [Finset.mem_sdiff, Finset.mem_insert]
        constructor
        · rintro ⟨hx | hx, hx2⟩
          · exact absurd (hx ▸ hcK) hx2
          · exact ⟨hx, hx2⟩
        · rintro ⟨hx1, hx2⟩
          exact ⟨Or.inr hx1, hx2⟩
      rw [hins]
      have hle := card_codes_sdiff_le rest (cacheKeys st.cache).toFinset
      refine ⟨by rw [ih1], ?_, by rw [ih3]⟩
      rw [ih2, List.length_cons]
      dsimp only
      omega
    | none =>
      rcases hlk c with ⟨v, hv⟩
      have hstep : cacheStep lookup st p =
          { st with
              misses := st.misses + 1
              svcCalls := st.svcCalls + 1
              cache := st.cache ++ [(c, v)] } := by
        rw [cacheStep, step_miss_some lookup p st c v hc hcne hfc hv]
      rw [hstep]
      rcases ih
        { st with
            misses := st.misses + 1
            svcCalls := st.svcCalls + 1
            cache := st.cache ++ [(c, v)] }
        hcodesrest with ⟨ih1, ih2, ih3⟩
      have hkeys : cacheKeys (st.cache ++ [(c, v)]) = cacheKeys st.cache ++ [c] := by
        simp [cacheKeys]
      have hkeysF : (cacheKeys (st.cache ++ [(c, v)])).toFinset =
          insert c (cacheKeys st.cache).toFinset := by
        rw [hkeys]
        ext x
        simp only [List.mem_toFinset, List.mem_append, List.mem_singleton,
          Finset.mem_insert]
        tauto
      have hcK : c ∉ (cacheKeys st.cache).toFinset := by
        intro hmem
        have : (findCached st.cache c).isSome :=
          (findCached_isSome_iff st.cache c).mpr (List.mem_toFinset.mp hmem)
        rw [hfc] at this
        cases this
      have hcard := insert_sdiff_card (codesOf rest).toFinset
        (cacheKeys st.cache).toFinset c hcK
      have hle := card_codes_sdiff_le rest
        (insert c (cacheKeys st.cache).toFinset)
      rw [ih1, ih2, ih3, hkeysF] at *
      refine ⟨?_, ?_, ?_⟩
      · dsimp only
        omega
      · rw [List.length_cons]
        dsimp only
        omega
      · dsimp only
        omega

theorem process_batch_snd {Ctx Raw Upd : Type} (db : DbEnv)
    (env : PipelineEnv Ctx Raw Upd) (rs : RuleStore) (batch_size : Nat)
    (pass_number : Int)
    (selected_item_ids selected_rule_ids : Option (List String))
    (h : load_products db batch_size pass_number selected_item_ids ≠ []) :
    (process_batch db env rs batch_size pass_number selected_item_ids
        selected_rule_ids).2 =
      (processItems env (load_rules rs pass_number selected_rule_ids)
        pass_number
        (load_products db batch_size pass_number selected_item_ids)).cs := by
  simp only [process_batch]
  cases hl : load_products db batch_size pass_number selected_item_ids with
  | nil => exact absurd hl h
  | cons a l => rfl

/-- C5: a 20-product batch whose classification codes take exactly 5
distinct values, with non-empty codes and a total, non-null lookup
collaborator, performs exactly 5 underlying Lookup Service calls (the 5
cache misses) and 15 cache hits, so the reported cache hit rate is 75;
moreover, per call: on a hit the cached value is returned and the hit
counter incremented; on a miss the miss counter is incremented and the
result is cached exactly when it is non-null. -/
theorem claim_C5_cache_efficiency {Ctx Raw Upd : Type} (db : DbEnv)
    (env : PipelineEnv Ctx Raw Upd) (rs : RuleStore) (batch_size : Nat)
    (pass_number : Int)
    (selected_item_ids selected_rule_ids : Option (List String))
    (hlk : ∀ code, ∃ v, env.lookup code = .ok (some v))
    (hcodes : ∀ p ∈ load_products db batch_size pass_number selected_item_ids,
      ∃ c, p.final_hts = some c ∧ c ≠ "")
    (hlen :
      (load_products db batch_size pass_number selected_item_ids).length = 20)
    (hdis : (codesOf
      (load_products db batch_size pass_number
        selected_item_ids)).toFinset.card = 5) :
    (process_batch db env rs batch_size pass_number selected_item_ids
        selected_rule_ids).2.misses = 5 ∧
    (process_batch db env rs batch_size pass_number selected_item_ids
        selected_rule_ids).2.hits = 15 ∧
    (process_batch db env rs batch_size pass_number selected_item_ids
        selected_rule_ids).2.svcCalls = 5 ∧
    cache_hit_rate (process_batch db env rs batch_size pass_number
        selected_item_ids selected_rule_ids).2 = 75 ∧
    (∀ (lookup : String → Except String (Option Ctx)) (p : Product)
      (st : CacheState Ctx) (code : String) (ctx : Ctx),
      p.final_hts = some code → code ≠ "" →
      findCached st.cache code = some ctx →
      get_hts_context_step lookup p st =
        (some ctx, { st with hits := st.hits + 1 })) ∧
    (∀ (lookup : String → Except String (Option Ctx)) (p : Product)
      (st : CacheState Ctx) (code : String) (ctx : Ctx),
      p.final_hts = some code → code ≠ "" →
      findCached st.cache code = none → lookup code = .ok (some ctx) →
      get_hts_context_step lookup p st =
        (some ctx,
          { st with
              misses := st.misses + 1
              svcCalls := st.svcCalls + 1
              cache := st.cache ++ [(code, ctx)] })) ∧
    (∀ (lookup : String → Except String (Option Ctx)) (p : Product)
      (st : CacheState Ctx) (code : String),
      p.final_hts = some code → code ≠ "" →
      findCached st.cache code = none → lookup code = .ok none →
      get_hts_context_step lookup p st =
        (none,
          { st with misses := st.misses + 1, svcCalls := st.svcCalls + 1 })) := by
  have hne : load_products db batch_size pass_number selected_item_ids ≠ [] := by
    intro h0
    rw [h0] at hlen
    cases hlen
  have hsnd := process_batch_snd db env rs batch_size pass_number
    selected_item_ids selected_rule_ids hne
  have hcs := processLoop_cs env
    (load_rules rs pass_number selected_rule_ids) pass_number
    (load_products db batch_size pass_number selected_item_ids)
    (LoopState.start Ctx)
  rcases cacheFold_counts env.lookup hlk
    (load_products db batch_size pass_number selected_item_ids)
    (CacheState.start Ctx) hcodes with ⟨h1, h2, h3⟩
  have hkeys : (cacheKeys (CacheState.start Ctx).cache).toFinset =
      (∅ : Finset String) := rfl
  rw [hkeys, Finset.sdiff_empty, hdis] at h1 h2 h3
  rw [hlen] at h2
  have hfold : (process_batch db env rs batch_size pass_number
      selected_item_ids selected_rule_ids).2 =
      (load_products db batch_size pass_number selected_item_ids).foldl
        (cacheStep env.lookup) (CacheState.start Ctx) := by
    rw [hsnd, processItems, hcs]
    rfl
  have hmiss : (process_batch db env rs batch_size pass_number
      selected_item_ids selected_rule_ids).2.misses = 5 := by
    rw [hfold, h1]
    rfl
  have hhits : (process_batch db env rs batch_size pass_number
      selected_item_ids selected_rule_ids).2.hits = 15 := by
    rw [hfold, h2]
    rfl
  refine ⟨hmiss, hhits, by rw [hfold, h3]; rfl, ?_, ?_, ?_, ?_⟩
  · rw [cache_hit_rate, hmiss, hhits, if_pos (by omega)]
    norm_num
  · intro lookup p st code ctx h hne0 hc
    exact step_hit lookup p st code ctx h hne0 hc
  · intro lookup p st code ctx h hne0 hc hl
    exact step_miss_some lookup p st code ctx h hne0 hc hl
  · intro lookup p st code h hne0 hc hl
    exact step_miss_none lookup p st code h hne0 hc hl

/-- C5 witness: the concrete 20-product batch with codes A…E (4 products
per code), processed with a lookup that returns the code itself. -/
theorem claim_C5_witness :
    (process_batch twentyDb failOnP3Env emptyRuleStore 20 1 none
        none).2.misses = 5 ∧
    (process_batch twentyDb failOnP3Env emptyRuleStore 20 1 none
        none).2.hits = 15 ∧
    (process_batch twentyDb failOnP3Env emptyRuleStore 20 1 none
        none).2.svcCalls = 5 ∧
    cache_hit_rate
      (process_batch twentyDb failOnP3Env emptyRuleStore 20 1 none none).2 =
      75 ∧
    (∀ (lookup : String → Except String (Option String)) (p : Product)
      (st : CacheState String) (code : String) (ctx : String),
      p.final_hts = some code → code ≠ "" →
      findCached st.cache code = some ctx →
      get_hts_context_step lookup p st =
        (some ctx, { st with hits := st.hits + 1 })) ∧
    (∀ (lookup : String → Except String (Option String)) (p : Product)
      (st : CacheState String) (code : String) (ctx : String),
      p.final_hts = some code → code ≠ "" →
      findCached st.cache code = none → lookup code = .ok (some ctx) →
      get_hts_context_step lookup p st =
        (some ctx,
          { st with
              misses := st.misses + 1
              svcCalls := st.svcCalls + 1
              cache := st.cache ++ [(code, ctx)] })) ∧
    (∀ (lookup : String → Except String (Option String)) (p : Product)
      (st : CacheState String) (code : String),
      p.final_hts = some code → code ≠ "" →
      findCached st.cache code = none → lookup code = .ok none →
      get_hts_context_step lookup p st =
        (none,
          { st with misses := st.misses + 1, svcCalls := st.svcCalls + 1 })) :=
  claim_C5_cache_efficiency twentyDb failOnP3Env emptyRuleStore 20 1 none none
    (fun code => ⟨code, rfl⟩) (by decide) (by decide) (by decide)

/-! ### Rule loading (claim C8 support) -/

theorem load_rules_error_swallowed (pass_number : Int)
    (sel : Option (List String)) (m1 m2 : String) :
    load_rules ⟨fun _ => .error m1, fun _ => .error m2⟩ pass_number sel = [] := by
  unfold load_rules
  by_cases h : pass_number = 1
  · rw [if_pos h]
  · rw [if_neg h]
    cases sel with
    | none => rfl
    | some ids => cases ids with
      | nil => rfl
      | cons a l => rfl

theorem load_rules_empty_store (pass_number : Int)
    (sel : Option (List String)) :
    load_rules emptyRuleStore pass_number sel = [] := by
  unfold load_rules
  by_cases h : pass_number = 1
  · rw [if_pos h]
  · rw [if_neg h]
    cases sel with
    | none => rfl
    | some ids => cases ids with
      | nil => rfl
      | cons a l => rfl

/-- C8 counterexample: with pass number 2 and an explicit selection, a
rule store whose every operation raises does NOT make process_batch fail:
_load_rules catches the exception (batch_processor.py lines 303-305) and
silently replaces the rule set by the empty list, and the batch runs to a
normal report — identical to the report of a store that returns no rules.
This refutes the claim that the error is fatal and propagates. -/
theorem claim_C8_cex :
    load_rules failRuleStore 2 none = [] ∧
    process_batch fiveDb failOnP3Env failRuleStore 5 2 (some ["P1"]) none =
      process_batch fiveDb failOnP3Env emptyRuleStore 5 2 (some ["P1"]) none ∧
    (process_batch fiveDb failOnP3Env failRuleStore 5 2 (some ["P1"])
        none).1.total_processed = 5 := by
  refine ⟨by decide, ?_, by decide⟩
  have h1 := load_rules_error_swallowed 2 none "rule store down"
    "rule store down"
  have h2 := load_rules_empty_store 2 none
  rw [show failRuleStore = ⟨fun _ => .error "rule store down",
    fun _ => .error "rule store down"⟩ from rfl]
  simp only [process_batch, h1, h2]

/-- C8 amended: for every batch invocation with passNumber ≥ 2, an error
raised while loading the rule set is caught inside _load_rules and
replaced by an empty rule list; process_batch proceeds and returns the
same report as with a rule store that returns no rules.  (Errors of the
product-loading phase are outside this guard.) -/
theorem claim_C8_amended (pass_number : Int) (_hpn : 2 ≤ pass_number)
    (sel : Option (List String)) (m1 m2 : String) :
    load_rules ⟨fun _ => .error m1, fun _ => .error m2⟩ pass_number sel = [] ∧
    ∀ (Ctx Raw Upd : Type) (db : DbEnv) (env : PipelineEnv Ctx Raw Upd)
      (batch_size : Nat) (selected_item_ids : Option (List String)),
      process_batch db env ⟨fun _ => .error m1, fun _ => .error m2⟩
          batch_size pass_number selected_item_ids sel =
        process_batch db env emptyRuleStore batch_size pass_number
          selected_item_ids sel := by
  refine ⟨load_rules_error_swallowed pass_number sel m1 m2, ?_⟩
  intro Ctx Raw Upd db env batch_size selected_item_ids
  have h1 := load_rules_error_swallowed pass_number sel m1 m2
  have h2 := load_rules_empty_store pass_number sel
  simp only [process_batch, h1, h2]

/-- C8 witness: the amended statement at pass 2 with no rule selection
and a concrete failing store. -/
theorem claim_C8_witness :
    load_rules ⟨fun _ => Except.error "rule store down",
        fun _ => Except.error "rule store down"⟩ 2 none = [] ∧
    process_batch fiveDb failOnP3Env
        ⟨fun _ => Except.error "rule store down",
          fun _ => Except.error "rule store down"⟩ 5 2 (some ["P1"]) none =
      process_batch fiveDb failOnP3Env emptyRuleStore 5 2 (some ["P1"])
        none :=
  ⟨(claim_C8_amended 2 (by decide) none "rule store down" "rule store down").1,
    (claim_C8_amended 2 (by decide) none "rule store down"
      "rule store down").2 String String String fiveDb failOnP3Env 5
      (some ["P1"])⟩

/-- C6: a retry-wrapped call with max_attempts = 3 whose underlying call
always raises a timeout invokes the underlying call exactly 3 times,
sleeps base_delay * exponential_base ^ (attempt - 1) between attempts
(attempts 1 and 2), and then raises the last encountered error. -/
theorem claim_C6_retry_exhaustion (base_delay exponential_base : ℚ) :
    call_with_retry (fun _ => .error .apiTimeout) 3 base_delay
        exponential_base =
      ⟨3,
        [base_delay * exponential_base ^ (1 - 1),
          base_delay * exponential_base ^ (2 - 1)],
        .error .apiTimeout⟩ := rfl

/-- C9: the code evaluated at the failing input.  Whenever the store
reports a nonzero number of unprocessed items, resume_pass_1 raises
TypeError at its first loop iteration: batch_count += 1 adds an int to
the tuple (0,) that lines 447-449 initialized the counters to.  It never
reaches a summary. -/
theorem claim_C9_resume_typeerror (stats : DbStatistics)
    (runBatch : Nat → Nat × Nat × Nat) (unprocAfter : Nat → Int)
    (fuel : Nat) (h : stats.unprocessed_count ≠ 0) :
    resume_pass_1 stats runBatch unprocAfter (fuel + 1) =
      some (.error
        "TypeError: can only concatenate tuple (not int) to tuple") := by
  unfold resume_pass_1
  rw [if_neg h]
  rfl

/-- C9 witness: a store with 7 unprocessed items. -/
theorem claim_C9_witness :
    resume_pass_1 ⟨10, 3, 7⟩ (fun _ => (0, 0, 0)) (fun _ => 0) 1 =
      some (.error
        "TypeError: can only concatenate tuple (not int) to tuple") :=
  claim_C9_resume_typeerror ⟨10, 3, 7⟩ (fun _ => (0, 0, 0)) (fun _ => 0) 0
    (by decide)

/-- C10 counterexample: for a product with a non-empty code whose lookup
raises, _get_hts_context DOES increment the cache miss counter — the
increment at batch_processor.py line 334 happens before the try block
around the service call — contradicting the claim that neither counter
is incremented. -/
theorem claim_C10_cex :
    (@get_hts_context_step String (fun _ => Except.error "lookup failed")
        ⟨"P1", some "7301.10"⟩ (CacheState.start String)).2.misses ≠ 0 := by
  decide

/-- C10 amended: a product with an absent or empty classification code is
resolved to a null context with no counter touched; a product whose
lookup raises is resolved to a null context without raising, with the
miss counter (and service-call count) incremented but the hit counter and
the cache unchanged; in both cases the product proceeds through the rest
of the pipeline — when the remaining steps succeed, the item is recorded
as a success, not as a failure at the lookup step. -/
theorem claim_C10_amended :
    (∀ (Ctx : Type) (lookup : String → Except String (Option Ctx))
      (p : Product) (st : CacheState Ctx),
      p.final_hts = none ∨ p.final_hts = some "" →
      get_hts_context_step lookup p st = (none, st)) ∧
    (∀ (Ctx : Type) (lookup : String → Except String (Option Ctx))
      (p : Product) (st : CacheState Ctx) (code msg : String),
      p.final_hts = some code → code ≠ "" →
      findCached st.cache code = none → lookup code = .error msg →
      get_hts_context_step lookup p st =
        (none,
          { st with misses := st.misses + 1, svcCalls := st.svcCalls + 1 })) ∧
    (∀ (Ctx Raw Upd : Type) (env : PipelineEnv Ctx Raw Upd)
      (rules : List Rule) (pass_number : Int) (st : LoopState Ctx)
      (p : Product) (lvl : ConfLevel) (score : String),
      runPipeline env rules pass_number p
          (get_hts_context_step env.lookup p st.cs).1 = .ok (lvl, score) →
      (processOne env rules pass_number st p).successful =
          st.successful + 1 ∧
        (processOne env rules pass_number st p).failed = st.failed) := by
  refine ⟨?_, ?_, ?_⟩
  · rintro Ctx lookup p st (h | h)
    · exact step_no_code lookup p st h
    · exact step_empty_code lookup p st h
  · intro Ctx lookup p st code msg h hne hc hl
    exact step_miss_error lookup p st code msg h hne hc hl
  · intro Ctx Raw Upd env rules pass_number st p lvl score h
    rw [processOne_ok env rules pass_number st p lvl score h]
    exact ⟨rfl, rfl⟩

/-- C10 witness: the amended statement at concrete inputs — a product
without code, a product whose lookup raises, and a product whose lookup
raises but whose remaining pipeline succeeds and is counted a success. -/
theorem claim_C10_witness :
    get_hts_context_step (fun _ => Except.ok (none : Option String))
        ⟨"P1", none⟩ (CacheState.start String) =
      (none, CacheState.start String) ∧
    get_hts_context_step (fun _ => Except.error "boom")
        ⟨"P2", some "7301.10"⟩ (CacheState.start String) =
      (none,
        { CacheState.start String with misses := 1, svcCalls := 1 }) ∧
    (processOne failOnP3Env [] 1 (LoopState.start String)
        ⟨"P1", some "A"⟩).successful = 1 := by
  refine ⟨?_, ?_, ?_⟩
  · exact claim_C10_amended.1 String _ ⟨"P1", none⟩ _ (Or.inl rfl)
  · exact claim_C10_amended.2.1 String _ ⟨"P2", some "7301.10"⟩ _ "7301.10"
      "boom" rfl (by decide) rfl rfl
  · have := (claim_C10_amended.2.2 String String String failOnP3Env [] 1
      (LoopState.start String) ⟨"P1", some "A"⟩ ConfLevel.high "0.90"
      rfl).1
    rw [this]
    rfl

/-- C6 witness: the retry trace at base delay 1 and exponential base 2. -/
theorem claim_C6_witness :
    call_with_retry (fun _ => .error .apiTimeout) 3 1 2 =
      ⟨3, [1 * 2 ^ (1 - 1), 1 * 2 ^ (2 - 1)], .error .apiTimeout⟩ :=
  claim_C6_retry_exhaustion 1 2

end CtOS
